import Mathlib

/-!
Shallow embedding of the PyBST library (pybst/bstree.py, avltree.py,
rbtree.py, splaytree.py).

The Python code mutates a graph of `Node` objects that carry `left`,
`right` and `parent` references.  We model the object graph explicitly:
a node is a record of fields, the heap is an association list from
object identity (a `Nat`, assigned at allocation) to the record, and a
tree is a root reference plus the heap.  A Python attribute read
`x.f` on `None` raises `AttributeError`; we model exceptions with
`Except PyErr`.  Recursion and `while` loops receive explicit fuel;
running out of fuel is reported as `PyErr.fuel` (the Python analogue is
a `RecursionError` or a hang).  `del node` in Python only drops a local
binding, so the heap never shrinks; object identities are never reused.
After an exception the Python tree may be left in a partially mutated
state; the embedding only propagates the error value, and no claim
below inspects post-exception heaps.
-/

inductive PyErr where
  | attr : PyErr   -- AttributeError (attribute access on None)
  | name : PyErr   -- NameError / UnboundLocalError
  | fuel : PyErr   -- recursion budget exhausted (RecursionError / hang)
deriving DecidableEq, Repr

structure PyNode where
  left : Option Nat
  right : Option Nat
  parent : Option Nat
  key : Int
  value : Int
  height : Int     -- used by AVLNode only
  balance : Int    -- used by AVLNode only
  red : Bool       -- RBNode color: true = 'r', false = 'k'
deriving DecidableEq, Repr

structure PyState where
  Root : Option Nat
  heap : List (Nat × PyNode)
  fresh : Nat
deriving DecidableEq, Repr

def emptyState : PyState := { Root := none, heap := [], fresh := 0 }

def lookupN : List (Nat × PyNode) → Nat → Option PyNode
  | [], _ => none
  | (j, n) :: t, i => if j = i then some n else lookupN t i

def updateN : List (Nat × PyNode) → Nat → PyNode → List (Nat × PyNode)
  | [], _, _ => []
  | (j, n) :: t, i, m => if j = i then (j, m) :: t else (j, n) :: updateN t i m

def readN (s : PyState) (i : Nat) : Except PyErr PyNode :=
  match lookupN s.heap i with
  | some n => .ok n
  | none => .error .attr

/-- Attribute access through a possibly-None reference:
reading a field of `None` raises `AttributeError`. -/
def readOpt (s : PyState) (x : Option Nat) : Except PyErr PyNode :=
  match x with
  | none => .error .attr
  | some i => readN s i

def writeN (s : PyState) (i : Nat) (n : PyNode) : PyState :=
  { s with heap := updateN s.heap i n }

/-- Object allocation: `Node(key, value)` with fresh identity. -/
def allocN (s : PyState) (n : PyNode) : PyState × Nat :=
  ({ s with heap := (s.fresh, n) :: s.heap, fresh := s.fresh + 1 }, s.fresh)

/-- `Node.__init__` of bstree.py: left/right/parent None. The AVLNode
subclass initializer adds height 0 and balance 0; the RBNode subclass
sets color 'r'.  We carry all fields on one record; plain and splay
nodes simply never read the extra ones, and `mkNode` is reused with the
RB color set where rbtree.py allocates. -/
def mkNode (k v : Int) : PyNode :=
  { left := none, right := none, parent := none, key := k, value := v,
    height := 0, balance := 0, red := false }

def mkRBNode (k v : Int) : PyNode := { mkNode k v with red := true }

-- Single-statement attribute writes `obj.attr = v` (each re-reads the
-- current cell, exactly like a Python attribute assignment).
def setLeft (s : PyState) (i : Nat) (v : Option Nat) : Except PyErr PyState := do
  let n ← readN s i; .ok (writeN s i { n with left := v })

def setRight (s : PyState) (i : Nat) (v : Option Nat) : Except PyErr PyState := do
  let n ← readN s i; .ok (writeN s i { n with right := v })

def setParent (s : PyState) (i : Nat) (v : Option Nat) : Except PyErr PyState := do
  let n ← readN s i; .ok (writeN s i { n with parent := v })

def setKey (s : PyState) (i : Nat) (v : Int) : Except PyErr PyState := do
  let n ← readN s i; .ok (writeN s i { n with key := v })

def setValue (s : PyState) (i : Nat) (v : Int) : Except PyErr PyState := do
  let n ← readN s i; .ok (writeN s i { n with value := v })

def setHeight (s : PyState) (i : Nat) (v : Int) : Except PyErr PyState := do
  let n ← readN s i; .ok (writeN s i { n with height := v })

def setBalance (s : PyState) (i : Nat) (v : Int) : Except PyErr PyState := do
  let n ← readN s i; .ok (writeN s i { n with balance := v })

def setRed (s : PyState) (i : Nat) (v : Bool) : Except PyErr PyState := do
  let n ← readN s i; .ok (writeN s i { n with red := v })

/-! ## bstree.py : class BSTree -/

/-- `BSTree.get_node(key, start)`: descend comparing keys; `None` start
produces `None`. -/
def BSTree.get_node : Nat → PyState → Int → Option Nat → Except PyErr (Option Nat)
  | 0, _, _, _ => .error .fuel
  | f + 1, s, key, start =>
    match start with
    | none => .ok none
    | some i => do
      let n ← readN s i
      if key = n.key then .ok (some i)
      else if key > n.key then BSTree.get_node f s key n.right
      else BSTree.get_node f s key n.left

/-- The recursive branch of `BSTree.insert(key, value, parent)`.  A new
`Node` object is allocated at every level of the descent, exactly as in
the source (`child = Node(key,value)` before the comparison); discarded
allocations stay in the heap as garbage, as in Python before GC. -/
def BSTree.insert_at : Nat → PyState → Int → Int → Nat → Except PyErr PyState
  | 0, _, _, _, _ => .error .fuel
  | f + 1, s, key, value, parentId => do
    let (s, childId) := allocN s (mkNode key value)
    let parent ← readN s parentId
    if key > parent.key then
      match parent.right with
      | none => do
        let s ← setRight s parentId (some childId)
        let s ← setParent s childId (some parentId)
        .ok s
      | some r => BSTree.insert_at f s key value r
    else
      match parent.left with
      | none => do
        let s ← setLeft s parentId (some childId)
        let s ← setParent s childId (some parentId)
        .ok s
      | some l => BSTree.insert_at f s key value l

/-- `BSTree.insert(key, value)` (keys are numbers in the model, so the
`isinstance` guard is always satisfied). -/
def BSTree.insert (fuel : Nat) (s : PyState) (key value : Int) :
    Except PyErr PyState :=
  match s.Root with
  | none =>
    let (s, rid) := allocN s (mkNode key value)
    .ok { s with Root := some rid }
  | some r => do
    match ← BSTree.get_node fuel s key (some r) with
    | some _ => .ok s
    | none => BSTree.insert_at fuel s key value r

/-- `BSTree.get_max(node)`: descend all-right; called on `None` this
dereferences `node.right` and raises. -/
def BSTree.get_max : Nat → PyState → Option Nat → Except PyErr Nat
  | 0, _, _ => .error .fuel
  | f + 1, s, node =>
    match node with
    | none => .error .attr
    | some i => do
      let n ← readN s i
      match n.right with
      | none => .ok i
      | some r => BSTree.get_max f s (some r)

/-- `BSTree.get_min(node)`. -/
def BSTree.get_min : Nat → PyState → Option Nat → Except PyErr Nat
  | 0, _, _ => .error .fuel
  | f + 1, s, node =>
    match node with
    | none => .error .attr
    | some i => do
      let n ← readN s i
      match n.left with
      | none => .ok i
      | some l => BSTree.get_min f s (some l)

/-- `BSTree.get_element_count(node)`: 0 for an absent subtree. -/
def BSTree.get_element_count : Nat → PyState → Option Nat → Except PyErr Int
  | 0, _, _ => .error .fuel
  | f + 1, s, node =>
    match node with
    | none => .ok 0
    | some i => do
      let n ← readN s i
      let cl ← match n.left with
        | none => pure (0 : Int)
        | some l => BSTree.get_element_count f s (some l)
      let cr ← match n.right with
        | none => pure (0 : Int)
        | some r => BSTree.get_element_count f s (some r)
      .ok (1 + cl + cr)

/-- `BSTree.get_height(node)`: note the source returns 0 both for an
absent subtree and for a childless node
(`if not node or (not node.left and not node.right): return 0`). -/
def BSTree.get_height : Nat → PyState → Option Nat → Except PyErr Int
  | 0, _, _ => .error .fuel
  | f + 1, s, node =>
    match node with
    | none => .ok 0
    | some i => do
      let n ← readN s i
      if n.left = none ∧ n.right = none then .ok 0
      else do
        let hl ← BSTree.get_height f s n.left
        let hr ← BSTree.get_height f s n.right
        .ok (1 + max hl hr)

/-- Recursive part of `BSTree.preorder`; only invoked on real nodes. -/
def BSTree.preorder_rec : Nat → PyState → Nat → List Nat → Except PyErr (List Nat)
  | 0, _, _, _ => .error .fuel
  | f + 1, s, i, acc => do
    let n ← readN s i
    let acc := acc ++ [i]
    let acc ← match n.left with
      | none => pure acc
      | some l => BSTree.preorder_rec f s l acc
    match n.right with
    | none => .ok acc
    | some r => BSTree.preorder_rec f s r acc

/-- `BSTree.preorder()`.  On an empty tree the source appends `None` to
the result list and then dereferences `node.left`, raising
`AttributeError`; the partially built list is discarded with the
exception. -/
def BSTree.preorder (fuel : Nat) (s : PyState) : Except PyErr (List Nat) :=
  match s.Root with
  | none => .error .attr
  | some i => BSTree.preorder_rec fuel s i []

def BSTree.inorder_rec : Nat → PyState → Nat → List Nat → Except PyErr (List Nat)
  | 0, _, _, _ => .error .fuel
  | f + 1, s, i, acc => do
    let n ← readN s i
    let acc ← match n.left with
      | none => pure acc
      | some l => BSTree.inorder_rec f s l acc
    let acc := acc ++ [i]
    match n.right with
    | none => .ok acc
    | some r => BSTree.inorder_rec f s r acc

/-- `BSTree.inorder()`; on an empty tree `node.left` is read from
`None`, raising `AttributeError`. -/
def BSTree.inorder (fuel : Nat) (s : PyState) : Except PyErr (List Nat) :=
  match s.Root with
  | none => .error .attr
  | some i => BSTree.inorder_rec fuel s i []

def BSTree.postorder_rec : Nat → PyState → Nat → List Nat → Except PyErr (List Nat)
  | 0, _, _, _ => .error .fuel
  | f + 1, s, i, acc => do
    let n ← readN s i
    let acc ← match n.left with
      | none => pure acc
      | some l => BSTree.postorder_rec f s l acc
    let acc ← match n.right with
      | none => pure acc
      | some r => BSTree.postorder_rec f s r acc
    .ok (acc ++ [i])

/-- `BSTree.postorder()`. -/
def BSTree.postorder (fuel : Nat) (s : PyState) : Except PyErr (List Nat) :=
  match s.Root with
  | none => .error .attr
  | some i => BSTree.postorder_rec fuel s i []

/-- `BSTree.levelorder` calls `self.get_node(removed, self.Root)` where
`removed` is a Node object, not a key.  Under Python 2 default mixed-type
comparison a number compares smaller than a class instance, so
`key == start.key` is always False and `key > start.key` is always True:
the lookup walks the right spine and returns `None`. -/
def BSTree.lv_lookup : Nat → PyState → Option Nat → Except PyErr (Option Nat)
  | 0, _, _ => .error .fuel
  | f + 1, s, start =>
    match start with
    | none => .ok none
    | some i => do
      let n ← readN s i
      BSTree.lv_lookup f s n.right

/-- The `while` loop of `BSTree.levelorder`.  The deque is modeled as a
FIFO list: `appendleft` enqueues at the tail of the list and `pop`
dequeues at the head.  `visit` is always `None` (see `BSTree.lv_lookup`),
so `visit.left` raises `AttributeError` on the first iteration. -/
def BSTree.levelorder_loop :
    Nat → PyState → List (Option Nat) → List (Option Nat) →
    Except PyErr (List (Option Nat))
  | 0, _, _, _ => .error .fuel
  | f + 1, s, q, lst =>
    match q with
    | [] => .ok lst
    | removed :: q => do
      let lst := lst ++ [removed]
      match ← BSTree.lv_lookup f s s.Root with
      | none => .error .attr
      | some v => do
        let n ← readN s v
        let q := match n.left with | none => q | some l => q ++ [some l]
        let q := match n.right with | none => q | some r => q ++ [some r]
        BSTree.levelorder_loop f s q lst

/-- `BSTree.levelorder()`. -/
def BSTree.levelorder (fuel : Nat) (s : PyState) :
    Except PyErr (List (Option Nat)) :=
  BSTree.levelorder_loop fuel s [s.Root] []

/-- `BSTree._delete_leaf(node)`: detaches from the parent if there is
one; a parentless leaf (the lone root) is left in place, since the
source has no `else` branch. -/
def BSTree.delete_leaf (s : PyState) (i : Nat) : Except PyErr PyState := do
  let n ← readN s i
  match n.parent with
  | none => .ok s
  | some p => do
    let pn ← readN s p
    if pn.left = some i then setLeft s p none
    else setRight s p none

/-- `BSTree._delete_leaf_parent(node)` (node with exactly one child).
When the node is the root the new root's parent reference is left
pointing at the removed node. -/
def BSTree.delete_leaf_parent (s : PyState) (i : Nat) : Except PyErr PyState := do
  let n ← readN s i
  let par := n.parent
  let rn ← readOpt s s.Root
  if n.key = rn.key then
    match n.right with
    | some r => do
      let s := { s with Root := some r }
      setRight s i none
    | none => do
      let s := { s with Root := n.left }
      setLeft s i none
  else
    match par with
    | none => .error .attr
    | some p => do
      let pn ← readN s p
      if pn.right = some i then
        match n.right with
        | some r => do
          let s ← setRight s p (some r)
          let s ← setParent s r (some p)
          setRight s i none
        | none => do
          let s ← setRight s p n.left
          match n.left with
          | none => .error .attr    -- par_node.right.parent on None
          | some l => do
            let s ← setParent s l (some p)
            setLeft s i none
      else
        match n.right with
        | some r => do
          let s ← setLeft s p (some r)
          let s ← setParent s r (some p)
          setRight s i none
        | none => do
          let s ← setLeft s p n.left
          match n.left with
          | none => .error .attr
          | some l => do
            let s ← setParent s l (some p)
            setLeft s i none

/-- `BSTree._switch_nodes(node1, node2)`: swaps keys and values
according to three cases keyed on key equality with the root.  In the
second branch (`switch2` is the root) `switch1.value` is never written,
exactly as in the source. -/
def BSTree.switch_nodes (s : PyState) (i1 i2 : Nat) : Except PyErr PyState := do
  let n1 ← readN s i1
  let temp_key := n1.key
  let temp_value := n1.value
  let rn ← readOpt s s.Root
  match s.Root with
  | none => .error .attr
  | some r =>
    if n1.key = rn.key then do
      let n2 ← readN s i2
      let s ← setKey s r n2.key
      let n2b ← readN s i2
      let s ← setValue s r n2b.value
      let s ← setKey s i2 temp_key
      setValue s i2 temp_value
    else do
      let n2 ← readN s i2
      if n2.key = rn.key then do
        let rcur ← readN s r
        let s ← setKey s i1 rcur.key
        let s ← setKey s r temp_key
        setValue s r temp_value
      else do
        let s ← setKey s i1 n2.key
        let n2b ← readN s i2
        let s ← setValue s i1 n2b.value
        let s ← setKey s i2 temp_key
        setValue s i2 temp_value

/-- `BSTree._delete_node(node)` (node with two children): switch with
the max of the left subtree when the left subtree is strictly taller
(by `get_height`), otherwise with the min of the right subtree; then
physically delete that successor position. -/
def BSTree.delete_node (fuel : Nat) (s : PyState) (i : Nat) :
    Except PyErr PyState := do
  let n ← readN s i
  let hl ← BSTree.get_height fuel s n.left
  let hr ← BSTree.get_height fuel s n.right
  if hl > hr then do
    let to_switch ← BSTree.get_max fuel s n.left
    let s ← BSTree.switch_nodes s i to_switch
    let tsw ← readN s to_switch
    let nn ← readN s i
    if tsw.right = none ∧ tsw.left = none then do
      let to_delete ← BSTree.get_max fuel s nn.left
      BSTree.delete_leaf s to_delete
    else do
      let to_delete ← BSTree.get_max fuel s nn.left
      BSTree.delete_leaf_parent s to_delete
  else do
    let to_switch ← BSTree.get_min fuel s n.right
    let s ← BSTree.switch_nodes s i to_switch
    let tsw ← readN s to_switch
    let nn ← readN s i
    if tsw.right = none ∧ tsw.left = none then do
      let to_delete ← BSTree.get_min fuel s nn.right
      BSTree.delete_leaf s to_delete
    else do
      let to_delete ← BSTree.get_min fuel s nn.right
      BSTree.delete_leaf_parent s to_delete

/-- `BSTree.delete(key)`: locate, then dispatch on the number of
children; absent key is a no-op. -/
def BSTree.delete (fuel : Nat) (s : PyState) (key : Int) :
    Except PyErr PyState := do
  match ← BSTree.get_node fuel s key s.Root with
  | none => .ok s
  | some i => do
    let n ← readN s i
    if n.left = none ∧ n.right = none then BSTree.delete_leaf s i
    else if n.left = none ∨ n.right = none then BSTree.delete_leaf_parent s i
    else BSTree.delete_node fuel s i

inductive Op where
  | ins : Int → Int → Op
  | del : Int → Op
deriving DecidableEq, Repr

def runBST (fuel : Nat) : List Op → PyState → Except PyErr PyState
  | [], s => .ok s
  | op :: ops, s => do
    let s ← match op with
      | .ins k v => BSTree.insert fuel s k v
      | .del k => BSTree.delete fuel s k
    runBST fuel ops s

/-! ## avltree.py : class AVLTree (AVLNode adds height and balance) -/

/-- `AVLTree.get_balance(node)`: stored height of the left child minus
stored height of the right child, -1 for an absent child; raises on a
`None` node. -/
def AVLTree.get_balance (s : PyState) (node : Option Nat) : Except PyErr Int := do
  let n ← readOpt s node
  let lh ← match n.left with
    | none => pure (-1 : Int)
    | some l => do pure (← readN s l).height
  let rh ← match n.right with
    | none => pure (-1 : Int)
    | some r => do pure (← readN s r).height
  pure (lh - rh)

/-- `AVLTree._update_height(node)`: recompute the structural height;
stop as soon as a node's stored height is already correct, else write
and continue at the parent. -/
def AVLTree.update_height : Nat → PyState → Option Nat → Except PyErr PyState
  | 0, _, _ => .error .fuel
  | f + 1, s, node =>
    match node with
    | none => .ok s
    | some i => do
      let new_height ← BSTree.get_height f s (some i)
      let n ← readN s i
      if n.height = new_height then .ok s
      else do
        let s ← setHeight s i new_height
        let n2 ← readN s i
        AVLTree.update_height f s n2.parent

/-- `AVLTree._update_balance(node)`: same early-stopping upward walk for
the stored balance. -/
def AVLTree.update_balance : Nat → PyState → Option Nat → Except PyErr PyState
  | 0, _, _ => .error .fuel
  | f + 1, s, node =>
    match node with
    | none => .ok s
    | some i => do
      let new_balance ← AVLTree.get_balance s (some i)
      let n ← readN s i
      if n.balance = new_balance then .ok s
      else do
        let s ← setBalance s i new_balance
        let n2 ← readN s i
        AVLTree.update_balance f s n2.parent

/-- `AVLTree._rotate_left(pivot)`.  The parent is reattached only when
one of its child links matches the old subtree root by key; if neither
matches (which happens when the parent reference is stale) the tree's
root reference is not updated. -/
def AVLTree.rotate_left (fuel : Nat) (s : PyState) (pivot : Nat) :
    Except PyErr PyState := do
  let old := pivot
  let par := (← readN s old).parent
  match (← readN s old).right with
  | none => .error .attr        -- temp = new_root.right on None
  | some new_root => do
    let nr ← readN s new_root
    let s ← setRight s old nr.left
    let oldn ← readN s old
    let s ← match oldn.right with
      | none => pure s
      | some orr => setParent s orr (some old)
    let s ← setLeft s new_root (some old)
    let s ← setParent s old (some new_root)
    let s ← (match par with
      | none => do
        let s := { s with Root := some new_root }
        setParent s new_root none
      | some p => do
        let pn ← readN s p
        let oldk := (← readN s old).key
        let hitRight ← match pn.right with
          | none => pure false
          | some pr => do pure ((← readN s pr).key == oldk)
        if hitRight then do
          let s ← setRight s p (some new_root)
          setParent s new_root (some p)
        else do
          let hitLeft ← match pn.left with
            | none => pure false
            | some pl => do pure ((← readN s pl).key == oldk)
          if hitLeft then do
            let s ← setLeft s p (some new_root)
            setParent s new_root (some p)
          else pure s)
    let nl := (← readN s new_root).left
    let s ← AVLTree.update_height fuel s nl
    let s ← AVLTree.update_height fuel s par
    let nl2 := (← readN s new_root).left
    let s ← AVLTree.update_balance fuel s nl2
    AVLTree.update_balance fuel s par

/-- `AVLTree._rotate_right(pivot)` (mirror image). -/
def AVLTree.rotate_right (fuel : Nat) (s : PyState) (pivot : Nat) :
    Except PyErr PyState := do
  let old := pivot
  let par := (← readN s old).parent
  match (← readN s old).left with
  | none => .error .attr
  | some new_root => do
    let nr ← readN s new_root
    let s ← setLeft s old nr.right
    let oldn ← readN s old
    let s ← match oldn.left with
      | none => pure s
      | some oll => setParent s oll (some old)
    let s ← setRight s new_root (some old)
    let s ← setParent s old (some new_root)
    let s ← (match par with
      | none => do
        let s := { s with Root := some new_root }
        setParent s new_root none
      | some p => do
        let pn ← readN s p
        let oldk := (← readN s old).key
        let hitRight ← match pn.right with
          | none => pure false
          | some pr => do pure ((← readN s pr).key == oldk)
        if hitRight then do
          let s ← setRight s p (some new_root)
          setParent s new_root (some p)
        else do
          let hitLeft ← match pn.left with
            | none => pure false
            | some pl => do pure ((← readN s pl).key == oldk)
          if hitLeft then do
            let s ← setLeft s p (some new_root)
            setParent s new_root (some p)
          else pure s)
    let nr2 := (← readN s new_root).right
    let s ← AVLTree.update_height fuel s nr2
    let s ← AVLTree.update_height fuel s par
    let nr3 := (← readN s new_root).right
    let s ← AVLTree.update_balance fuel s nr3
    AVLTree.update_balance fuel s par

/-- `AVLTree._balance(pivot)`: rotation decision table on the stored
balances. -/
def AVLTree.balance (fuel : Nat) (s : PyState) (pivot : Nat) :
    Except PyErr PyState := do
  let weight ← AVLTree.get_balance s (some pivot)
  if weight = -2 then do
    let pr := (← readN s pivot).right
    let b ← AVLTree.get_balance s pr
    if b = -1 ∨ b = 0 then AVLTree.rotate_left fuel s pivot
    else if b = 1 then do
      match pr with
      | none => .error .attr
      | some prr => do
        let s ← AVLTree.rotate_right fuel s prr
        AVLTree.rotate_left fuel s pivot
    else .ok s
  else if weight = 2 then do
    let pl := (← readN s pivot).left
    let b ← AVLTree.get_balance s pl
    if b = 1 ∨ b = 0 then AVLTree.rotate_right fuel s pivot
    else if b = -1 then do
      match pl with
      | none => .error .attr
      | some pll => do
        let s ← AVLTree.rotate_left fuel s pll
        AVLTree.rotate_right fuel s pivot
    else .ok s
  else .ok s

/-- The upward `while node and abs(node.balance) <= 1` walk of
`AVLTree.insert` and the delete helpers: produce the first ancestor
whose stored balance is out of range, if any.  (The left-insert branch
phrases the loop with the `None` test inside the body; the walk is the
same.) -/
def AVLTree.find_unbalanced : Nat → PyState → Option Nat → Except PyErr (Option Nat)
  | 0, _, _ => .error .fuel
  | f + 1, s, node =>
    match node with
    | none => .ok none
    | some i => do
      let n ← readN s i
      if |n.balance| ≤ 1 then AVLTree.find_unbalanced f s n.parent
      else .ok (some i)

/-- Recursive branch of `AVLTree.insert`: attach an `AVLNode`, update
heights and balances from the parent upward, then rebalance at the
first out-of-range ancestor (at most one rotation site). -/
def AVLTree.insert_at : Nat → PyState → Int → Int → Nat → Except PyErr PyState
  | 0, _, _, _, _ => .error .fuel
  | f + 1, s, key, value, parentId => do
    let (s, childId) := allocN s (mkNode key value)
    let parent ← readN s parentId
    if key > parent.key then
      match parent.right with
      | none => do
        let s ← setRight s parentId (some childId)
        let s ← setParent s childId (some parentId)
        let s ← AVLTree.update_height f s (some parentId)
        let s ← AVLTree.update_balance f s (some parentId)
        match ← AVLTree.find_unbalanced f s (some childId) with
        | none => .ok s
        | some u => AVLTree.balance f s u
      | some r => AVLTree.insert_at f s key value r
    else
      match parent.left with
      | none => do
        let s ← setLeft s parentId (some childId)
        let s ← setParent s childId (some parentId)
        let s ← AVLTree.update_height f s (some parentId)
        let s ← AVLTree.update_balance f s (some parentId)
        match ← AVLTree.find_unbalanced f s (some childId) with
        | none => .ok s
        | some u => AVLTree.balance f s u
      | some l => AVLTree.insert_at f s key value l

/-- `AVLTree.insert(key, value)`. -/
def AVLTree.insert (fuel : Nat) (s : PyState) (key value : Int) :
    Except PyErr PyState :=
  match s.Root with
  | none =>
    let (s, rid) := allocN s (mkNode key value)
    .ok { s with Root := some rid }
  | some r => do
    match ← BSTree.get_node fuel s key (some r) with
    | some _ => .ok s
    | none => AVLTree.insert_at fuel s key value r

/-- `AVLTree._delete_leaf(node)`: detach (or clear the root), update
heights/balances upward, then a single `_balance` at the first
out-of-range ancestor.  The walk does not continue past that one
rotation site. -/
def AVLTree.delete_leaf (fuel : Nat) (s : PyState) (i : Nat) :
    Except PyErr PyState := do
  let n ← readN s i
  match n.parent with
  | none => .ok { s with Root := none }
  | some p => do
    let pn ← readN s p
    let s ← (if pn.left = some i then setLeft s p none else setRight s p none)
    let s ← AVLTree.update_height fuel s (some p)
    let s ← AVLTree.update_balance fuel s (some p)
    match ← AVLTree.find_unbalanced fuel s (some p) with
    | none => .ok s
    | some u => AVLTree.balance fuel s u

/-- `AVLTree._delete_leaf_parent(node)` (node with exactly one child):
the splice section is a textual copy of `BSTree._delete_leaf_parent`
in the source, so it is factored through the base-class function here
(`par_node` is read up front exactly as in the source), followed by the
same single-site rebalance from the parent. -/
def AVLTree.delete_leaf_parent (fuel : Nat) (s : PyState) (i : Nat) :
    Except PyErr PyState := do
  let n ← readN s i
  let par := n.parent
  let s ← BSTree.delete_leaf_parent s i
  let s ← AVLTree.update_height fuel s par
  let s ← AVLTree.update_balance fuel s par
  match ← AVLTree.find_unbalanced fuel s par with
  | none => .ok s
  | some u => AVLTree.balance fuel s u

/-- `AVLTree._delete_node(node)` (two children); same successor choice
as the base class, with the AVL delete helpers. -/
def AVLTree.delete_node (fuel : Nat) (s : PyState) (i : Nat) :
    Except PyErr PyState := do
  let n ← readN s i
  let hl ← BSTree.get_height fuel s n.left
  let hr ← BSTree.get_height fuel s n.right
  if hl > hr then do
    let to_switch ← BSTree.get_max fuel s n.left
    let s ← BSTree.switch_nodes s i to_switch
    let tsw ← readN s to_switch
    let nn ← readN s i
    if tsw.right = none ∧ tsw.left = none then do
      let to_delete ← BSTree.get_max fuel s nn.left
      AVLTree.delete_leaf fuel s to_delete
    else do
      let to_delete ← BSTree.get_max fuel s nn.left
      AVLTree.delete_leaf_parent fuel s to_delete
  else do
    let to_switch ← BSTree.get_min fuel s n.right
    let s ← BSTree.switch_nodes s i to_switch
    let tsw ← readN s to_switch
    let nn ← readN s i
    if tsw.right = none ∧ tsw.left = none then do
      let to_delete ← BSTree.get_min fuel s nn.right
      AVLTree.delete_leaf fuel s to_delete
    else do
      let to_delete ← BSTree.get_min fuel s nn.right
      AVLTree.delete_leaf_parent fuel s to_delete

/-- `AVLTree.delete(key)`. -/
def AVLTree.delete (fuel : Nat) (s : PyState) (key : Int) :
    Except PyErr PyState := do
  match ← BSTree.get_node fuel s key s.Root with
  | none => .ok s
  | some i => do
    let n ← readN s i
    if n.left = none ∧ n.right = none then AVLTree.delete_leaf fuel s i
    else if n.left = none ∨ n.right = none then AVLTree.delete_leaf_parent fuel s i
    else AVLTree.delete_node fuel s i

def runAVL (fuel : Nat) : List Op → PyState → Except PyErr PyState
  | [], s => .ok s
  | op :: ops, s => do
    let s ← match op with
      | .ins k v => AVLTree.insert fuel s k v
      | .del k => AVLTree.delete fuel s k
    runAVL fuel ops s

/-! ## rbtree.py : class RBTree (RBNode adds color; true = red) -/

/-- `RBTree._rotate_left(pivot)`: the BSTree-link rotation without any
height bookkeeping; same stale-parent reattachment rule by key. -/
def RBTree.rotate_left (s : PyState) (pivot : Nat) : Except PyErr PyState := do
  let old := pivot
  let par := (← readN s old).parent
  match (← readN s old).right with
  | none => .error .attr
  | some new_root => do
    let nr ← readN s new_root
    let s ← setRight s old nr.left
    let oldn ← readN s old
    let s ← match oldn.right with
      | none => pure s
      | some orr => setParent s orr (some old)
    let s ← setLeft s new_root (some old)
    let s ← setParent s old (some new_root)
    match par with
    | none => do
      let s := { s with Root := some new_root }
      setParent s new_root none
    | some p => do
      let pn ← readN s p
      let oldk := (← readN s old).key
      let hitRight ← match pn.right with
        | none => pure false
        | some pr => do pure ((← readN s pr).key == oldk)
      if hitRight then do
        let s ← setRight s p (some new_root)
        setParent s new_root (some p)
      else do
        let hitLeft ← match pn.left with
          | none => pure false
          | some pl => do pure ((← readN s pl).key == oldk)
        if hitLeft then do
          let s ← setLeft s p (some new_root)
          setParent s new_root (some p)
        else pure s

/-- `RBTree._rotate_right(pivot)`: unlike its left twin this one is
guarded by `if not pivot.left: pass`. -/
def RBTree.rotate_right (s : PyState) (pivot : Nat) : Except PyErr PyState := do
  match (← readN s pivot).left with
  | none => .ok s
  | some new_root => do
    let old := pivot
    let par := (← readN s old).parent
    let nr ← readN s new_root
    let s ← setLeft s old nr.right
    let oldn ← readN s old
    let s ← match oldn.left with
      | none => pure s
      | some oll => setParent s oll (some old)
    let s ← setRight s new_root (some old)
    let s ← setParent s old (some new_root)
    match par with
    | none => do
      let s := { s with Root := some new_root }
      setParent s new_root none
    | some p => do
      let pn ← readN s p
      let oldk := (← readN s old).key
      let hitRight ← match pn.right with
        | none => pure false
        | some pr => do pure ((← readN s pr).key == oldk)
      if hitRight then do
        let s ← setRight s p (some new_root)
        setParent s new_root (some p)
      else do
        let hitLeft ← match pn.left with
          | none => pure false
          | some pl => do pure ((← readN s pl).key == oldk)
        if hitLeft then do
          let s ← setLeft s p (some new_root)
          setParent s new_root (some p)
        else pure s

/-- `RBTree._insert_case_five(child)`: recolor parent/grandparent and
rotate at the grandparent (outer-grandchild case). -/
def RBTree.insert_case_five (s : PyState) (child : Nat) : Except PyErr PyState := do
  let n ← readN s child
  match n.parent with
  | none => .error .attr
  | some p => do
    let pn ← readN s p
    match pn.parent with
    | none => .error .attr        -- grand_node.left on None
    | some g => do
      -- the uncle is computed in the source but never used here
      if pn.left = some child then do
        let s ← setRed s g true
        let s ← setRed s p false
        RBTree.rotate_right s g
      else if pn.right = some child then do
        let s ← setRed s g true
        let s ← setRed s p false
        RBTree.rotate_left s g
      else .ok s

/-- `RBTree._insert_case_four(child)`: inner-grandchild cases rotate at
the parent and rename `node` to the demoted parent side before falling
through to case five. -/
def RBTree.insert_case_four (s : PyState) (child : Nat) : Except PyErr PyState := do
  let n ← readN s child
  match n.parent with
  | none => .error .attr
  | some p => do
    let pn ← readN s p
    match pn.parent with
    | none => .error .attr
    | some g => do
      let gn ← readN s g
      if gn.left == some p && pn.right == some child then do
        let s ← RBTree.rotate_left s p
        match (← readN s child).left with
        | none => .error .attr
        | some c2 => RBTree.insert_case_five s c2
      else if gn.right == some p && pn.left == some child then do
        let s ← RBTree.rotate_right s p
        match (← readN s child).right with
        | none => .error .attr
        | some c2 => RBTree.insert_case_five s c2
      else RBTree.insert_case_five s child

mutual

/-- `RBTree._insert_case_one(child)`: at the root, recolor the tree
root black; otherwise case two. -/
def RBTree.insert_case_one : Nat → PyState → Nat → Except PyErr PyState
  | 0, _, _ => .error .fuel
  | f + 1, s, child => do
    let n ← readN s child
    match n.parent with
    | none =>
      match s.Root with
      | none => .error .attr
      | some r => setRed s r false
    | some _ => RBTree.insert_case_two f s child

/-- `RBTree._insert_case_two(child)`: done if the parent is black. -/
def RBTree.insert_case_two : Nat → PyState → Nat → Except PyErr PyState
  | 0, _, _ => .error .fuel
  | f + 1, s, child => do
    let n ← readN s child
    let pn ← readOpt s n.parent
    if pn.red then RBTree.insert_case_three f s child
    else .ok s

/-- `RBTree._insert_case_three(child)`: red uncle means recolor and
recurse from the grandparent, else case four. -/
def RBTree.insert_case_three : Nat → PyState → Nat → Except PyErr PyState
  | 0, _, _ => .error .fuel
  | f + 1, s, child => do
    let n ← readN s child
    match n.parent with
    | none => .error .attr
    | some p => do
      let pn ← readN s p
      match pn.parent with
      | none => .error .attr
      | some g => do
        let gn ← readN s g
        let uncle := if gn.left = some p then gn.right else gn.left
        let uncleRed ← match uncle with
          | none => pure false
          | some u => do pure (← readN s u).red
        if uncleRed then do
          let s ← setRed s g true
          let s ← setRed s p false
          match uncle with
          | none => .error .attr
          | some u => do
            let s ← setRed s u false
            RBTree.insert_case_one f s g
        else RBTree.insert_case_four s child

end

/-- Recursive branch of `RBTree.insert`: allocate a red `RBNode`,
attach it, and run the insert state machine only when the parent is
red. -/
def RBTree.insert_at : Nat → PyState → Int → Int → Nat → Except PyErr PyState
  | 0, _, _, _, _ => .error .fuel
  | f + 1, s, key, value, parentId => do
    let (s, childId) := allocN s (mkRBNode key value)
    let parent ← readN s parentId
    if key > parent.key then
      match parent.right with
      | none => do
        let s ← setRight s parentId (some childId)
        let s ← setParent s childId (some parentId)
        if (← readN s parentId).red then RBTree.insert_case_one f s childId
        else .ok s
      | some r => RBTree.insert_at f s key value r
    else
      match parent.left with
      | none => do
        let s ← setLeft s parentId (some childId)
        let s ← setParent s childId (some parentId)
        if (← readN s parentId).red then RBTree.insert_case_one f s childId
        else .ok s
      | some l => RBTree.insert_at f s key value l

/-- `RBTree.insert(key, value)`: a first node is allocated red then the
root is recolored black. -/
def RBTree.insert (fuel : Nat) (s : PyState) (key value : Int) :
    Except PyErr PyState :=
  match s.Root with
  | none =>
    let (s, rid) := allocN s (mkRBNode key value)
    let s := { s with Root := some rid }
    setRed s rid false
  | some r => do
    match ← BSTree.get_node fuel s key (some r) with
    | some _ => .ok s
    | none => RBTree.insert_at fuel s key value r

/-- The repeated sibling computation of the delete cases:
`if par_node.left == node: sib = par_node.right elif ...`; when neither
child of the parent is `node` the local stays unbound and its first use
raises. -/
def RBTree.sib_of (s : PyState) (node : Option Nat) (p : Nat) :
    Except PyErr (Option Nat) := do
  let pn ← readN s p
  if pn.left = node then pure pn.right
  else if pn.right = node then pure pn.left
  else .error .name

/-- `sib_color` of the delete cases: black when the sibling is absent
or colored black. -/
def RBTree.sib_black (s : PyState) (sib : Option Nat) : Except PyErr Bool :=
  match sib with
  | none => .ok true
  | some j => do pure (!(← readN s j).red)

/-- `sib_left_color`: black when the sibling or its left child is
absent, or that child is black. -/
def RBTree.sib_left_black (s : PyState) (sib : Option Nat) : Except PyErr Bool :=
  match sib with
  | none => .ok true
  | some j => do
    let n ← readN s j
    match n.left with
    | none => .ok true
    | some l => do pure (!(← readN s l).red)

/-- `sib_right_color` analogue. -/
def RBTree.sib_right_black (s : PyState) (sib : Option Nat) : Except PyErr Bool :=
  match sib with
  | none => .ok true
  | some j => do
    let n ← readN s j
    match n.right with
    | none => .ok true
    | some r => do pure (!(← readN s r).red)

/-- `RBTree._delete_case_six(child, parent)`: far-red sibling child;
rotate at the parent toward the deleted side and fix colors. -/
def RBTree.delete_case_six (s : PyState) (child : Option Nat) (p : Nat) :
    Except PyErr PyState := do
  let sib ← RBTree.sib_of s child p
  let sibB ← RBTree.sib_black s sib
  let sibLB ← RBTree.sib_left_black s sib
  let sibRB ← RBTree.sib_right_black s sib
  let pn ← readN s p
  if pn.left == child && sibB && !sibRB then do
    match sib with
    | none => .error .attr
    | some j => do
      let s ← setRed s j pn.red
      let s ← setRed s p false
      match (← readN s j).right with
      | none => .error .attr
      | some r => do
        let s ← setRed s r false
        RBTree.rotate_left s p
  else if pn.right == child && sibB && !sibLB then do
    match sib with
    | none => .error .attr
    | some j => do
      let s ← setRed s j pn.red
      let s ← setRed s p false
      match (← readN s j).left with
      | none => .error .attr
      | some l => do
        let s ← setRed s l false
        RBTree.rotate_right s p
  else .ok s

/-- `RBTree._delete_case_five(child, parent)`: near-red far-black
sibling child; rotate at the sibling, then case six. -/
def RBTree.delete_case_five (s : PyState) (child : Option Nat) (p : Nat) :
    Except PyErr PyState := do
  let sib ← RBTree.sib_of s child p
  let sibB ← RBTree.sib_black s sib
  let sibLB ← RBTree.sib_left_black s sib
  let sibRB ← RBTree.sib_right_black s sib
  let pn ← readN s p
  let s ← (if sibB then
      if pn.left == child && sibRB && !sibLB then do
        match sib with
        | none => .error .attr
        | some j => do
          let s ← setRed s j true
          match (← readN s j).left with
          | none => .error .attr
          | some l => do
            let s ← setRed s l false
            RBTree.rotate_right s j
      else if pn.right == child && sibLB && !sibRB then do
        match sib with
        | none => .error .attr
        | some j => do
          let s ← setRed s j true
          match (← readN s j).right with
          | none => .error .attr
          | some r => do
            let s ← setRed s r false
            RBTree.rotate_left s j
      else pure s
    else pure s)
  RBTree.delete_case_six s child p

/-- `RBTree._delete_case_four(child, parent)`: red parent with an
all-black sibling family swaps parent/sibling colors, else case five.
When the sibling is absent but the guard holds, `sib_node.color`
dereferences `None`. -/
def RBTree.delete_case_four (s : PyState) (child : Option Nat) (p : Nat) :
    Except PyErr PyState := do
  let sib ← RBTree.sib_of s child p
  let sibB ← RBTree.sib_black s sib
  let sibLB ← RBTree.sib_left_black s sib
  let sibRB ← RBTree.sib_right_black s sib
  let pn ← readN s p
  if pn.red && sibB && sibLB && sibRB then do
    match sib with
    | none => .error .attr
    | some j => do
      let s ← setRed s j true
      setRed s p false
  else RBTree.delete_case_five s child p

mutual

/-- `RBTree._delete_case_one(child, parent)`: done at the root,
otherwise case two. -/
def RBTree.delete_case_one : Nat → PyState → Option Nat → Option Nat → Except PyErr PyState
  | 0, _, _, _ => .error .fuel
  | f + 1, s, child, parent =>
    match parent with
    | none => .ok s
    | some p => RBTree.delete_case_two f s child p

/-- `RBTree._delete_case_two(child, parent)`: red sibling gets rotated
toward the deleted side, then case three. -/
def RBTree.delete_case_two : Nat → PyState → Option Nat → Nat → Except PyErr PyState
  | 0, _, _, _ => .error .fuel
  | f + 1, s, child, p => do
    let sib ← RBTree.sib_of s child p
    let sibRed ← match sib with
      | none => pure false
      | some j => do pure (← readN s j).red
    let s ← (if sibRed then do
        match sib with
        | none => .error .attr
        | some j => do
          let s ← setRed s j false
          let s ← setRed s p true
          let pn ← readN s p
          if pn.left == child then RBTree.rotate_left s p
          else RBTree.rotate_right s p
      else pure s)
    RBTree.delete_case_three f s child p

/-- `RBTree._delete_case_three(child, parent)`: all-black family
recolors the sibling red and recurses from the parent; when the
sibling is absent the recolor dereferences `None`. -/
def RBTree.delete_case_three : Nat → PyState → Option Nat → Nat → Except PyErr PyState
  | 0, _, _, _ => .error .fuel
  | f + 1, s, child, p => do
    let sib ← RBTree.sib_of s child p
    let sibB ← RBTree.sib_black s sib
    let sibLB ← RBTree.sib_left_black s sib
    let sibRB ← RBTree.sib_right_black s sib
    let pn ← readN s p
    if !pn.red && sibB && sibLB && sibRB then do
      match sib with
      | none => .error .attr
      | some j => do
        let s ← setRed s j true
        let ppar := (← readN s p).parent
        RBTree.delete_case_one f s (some p) ppar
    else RBTree.delete_case_four s child p

end

/-- `RBTree._delete_leaf(node)`: detach and, when the removed leaf was
black, run the delete state machine with a `None` replacement.  With no
parent nothing is detached and `new_node` stays unbound. -/
def RBTree.delete_leaf (fuel : Nat) (s : PyState) (i : Nat) :
    Except PyErr PyState := do
  let n ← readN s i
  let node_black := !n.red
  match n.parent with
  | none => if node_black then .error .name else .ok s
  | some p => do
    let pn ← readN s p
    let s ← (if pn.left = some i then setLeft s p none else setRight s p none)
    if node_black then RBTree.delete_case_one fuel s none (some p)
    else .ok s

/-- `RBTree._delete_leaf_parent(node)` (one child): splice with color
fixes.  In the root branch `new_node` is read from the child link that
was just cleared, hence `None`; the new root is recolored black and its
parent reference is left stale. -/
def RBTree.delete_leaf_parent (fuel : Nat) (s : PyState) (i : Nat) :
    Except PyErr PyState := do
  let n ← readN s i
  let par := n.parent
  let node_black := !n.red
  let child_red ← match n.left with
    | some l => do pure (← readN s l).red
    | none =>
      match n.right with
      | some r => do pure (← readN s r).red
      | none => .error .attr
  let rn ← readOpt s s.Root
  if n.key = rn.key then
    match n.right with
    | some r => do
      let s := { s with Root := some r }
      let s ← setRed s r false
      let s ← setRight s i none
      if node_black && !child_red then RBTree.delete_case_one fuel s none par
      else .ok s
    | none =>
      match n.left with
      | none => .error .attr
      | some l => do
        let s := { s with Root := some l }
        let s ← setRed s l false
        let s ← setLeft s i none
        if node_black && !child_red then RBTree.delete_case_one fuel s none par
        else .ok s
  else
    match par with
    | none => .error .attr
    | some p => do
      let pn ← readN s p
      if pn.right = some i then
        match n.right with
        | some r => do
          let s ← setRight s p (some r)
          let s ← setParent s r (some p)
          let s ← setRight s i none
          let s ← (if node_black && child_red then do
              match (← readN s p).right with
              | none => .error .attr
              | some q => setRed s q false
            else pure s)
          let new_node := (← readN s p).right
          if node_black && !child_red then RBTree.delete_case_one fuel s new_node (some p)
          else .ok s
        | none => do
          let s ← setRight s p n.left
          match n.left with
          | none => .error .attr
          | some l => do
            let s ← setParent s l (some p)
            let s ← setLeft s i none
            let s ← (if node_black && child_red then do
                match (← readN s p).right with
                | none => .error .attr
                | some q => setRed s q false
              else pure s)
            let new_node := (← readN s p).right
            if node_black && !child_red then RBTree.delete_case_one fuel s new_node (some p)
            else .ok s
      else
        match n.right with
        | some r => do
          let s ← setLeft s p (some r)
          let s ← setParent s r (some p)
          let s ← setRight s i none
          let s ← (if node_black && child_red then do
              match (← readN s p).left with
              | none => .error .attr
              | some q => setRed s q false
            else pure s)
          let new_node := (← readN s p).left
          if node_black && !child_red then RBTree.delete_case_one fuel s new_node (some p)
          else .ok s
        | none => do
          let s ← setLeft s p n.left
          match n.left with
          | none => .error .attr
          | some l => do
            let s ← setParent s l (some p)
            let s ← setLeft s i none
            let s ← (if node_black && child_red then do
                match (← readN s p).left with
                | none => .error .attr
                | some q => setRed s q false
              else pure s)
            let new_node := (← readN s p).left
            if node_black && !child_red then RBTree.delete_case_one fuel s new_node (some p)
            else .ok s

/-- `RBTree._delete_node` delegates to the BSTree algorithm, whose
`self._delete_leaf` calls dispatch to the RB overrides. -/
def RBTree.delete_node (fuel : Nat) (s : PyState) (i : Nat) :
    Except PyErr PyState := do
  let n ← readN s i
  let hl ← BSTree.get_height fuel s n.left
  let hr ← BSTree.get_height fuel s n.right
  if hl > hr then do
    let to_switch ← BSTree.get_max fuel s n.left
    let s ← BSTree.switch_nodes s i to_switch
    let tsw ← readN s to_switch
    let nn ← readN s i
    if tsw.right = none ∧ tsw.left = none then do
      let to_delete ← BSTree.get_max fuel s nn.left
      RBTree.delete_leaf fuel s to_delete
    else do
      let to_delete ← BSTree.get_max fuel s nn.left
      RBTree.delete_leaf_parent fuel s to_delete
  else do
    let to_switch ← BSTree.get_min fuel s n.right
    let s ← BSTree.switch_nodes s i to_switch
    let tsw ← readN s to_switch
    let nn ← readN s i
    if tsw.right = none ∧ tsw.left = none then do
      let to_delete ← BSTree.get_min fuel s nn.right
      RBTree.delete_leaf fuel s to_delete
    else do
      let to_delete ← BSTree.get_min fuel s nn.right
      RBTree.delete_leaf_parent fuel s to_delete

/-- `RBTree.delete(key)`: a parentless childless node (the lone root)
matches the leaf case but is guarded by `if node.parent:`, so nothing
at all happens to it. -/
def RBTree.delete (fuel : Nat) (s : PyState) (key : Int) :
    Except PyErr PyState := do
  match ← BSTree.get_node fuel s key s.Root with
  | none => .ok s
  | some i => do
    let n ← readN s i
    if n.left = none ∧ n.right = none then
      match n.parent with
      | none => .ok s
      | some _ => RBTree.delete_leaf fuel s i
    else if n.left = none ∨ n.right = none then RBTree.delete_leaf_parent fuel s i
    else RBTree.delete_node fuel s i

def runRB (fuel : Nat) : List Op → PyState → Except PyErr PyState
  | [], s => .ok s
  | op :: ops, s => do
    let s ← match op with
      | .ins k v => RBTree.insert fuel s k v
      | .del k => RBTree.delete fuel s k
    runRB fuel ops s

/-! ## splaytree.py : class SplayTree (plain nodes, rotate-to-root) -/

/-- `SplayTree._rotate_left(pivot)` (textually the BSTree-link rotation
of rbtree.py without metadata updates; splaytree.py carries no guard on
either direction). -/
def SplayTree.rotate_left (s : PyState) (pivot : Nat) : Except PyErr PyState := do
  let old := pivot
  let par := (← readN s old).parent
  match (← readN s old).right with
  | none => .error .attr
  | some new_root => do
    let nr ← readN s new_root
    let s ← setRight s old nr.left
    let oldn ← readN s old
    let s ← match oldn.right with
      | none => pure s
      | some orr => setParent s orr (some old)
    let s ← setLeft s new_root (some old)
    let s ← setParent s old (some new_root)
    match par with
    | none => do
      let s := { s with Root := some new_root }
      setParent s new_root none
    | some p => do
      let pn ← readN s p
      let oldk := (← readN s old).key
      let hitRight ← match pn.right with
        | none => pure false
        | some pr => do pure ((← readN s pr).key == oldk)
      if hitRight then do
        let s ← setRight s p (some new_root)
        setParent s new_root (some p)
      else do
        let hitLeft ← match pn.left with
          | none => pure false
          | some pl => do pure ((← readN s pl).key == oldk)
        if hitLeft then do
          let s ← setLeft s p (some new_root)
          setParent s new_root (some p)
        else pure s

/-- `SplayTree._rotate_right(pivot)` (no `pivot.left` guard). -/
def SplayTree.rotate_right (s : PyState) (pivot : Nat) : Except PyErr PyState := do
  let old := pivot
  let par := (← readN s old).parent
  match (← readN s old).left with
  | none => .error .attr
  | some new_root => do
    let nr ← readN s new_root
    let s ← setLeft s old nr.right
    let oldn ← readN s old
    let s ← match oldn.left with
      | none => pure s
      | some oll => setParent s oll (some old)
    let s ← setRight s new_root (some old)
    let s ← setParent s old (some new_root)
    match par with
    | none => do
      let s := { s with Root := some new_root }
      setParent s new_root none
    | some p => do
      let pn ← readN s p
      let oldk := (← readN s old).key
      let hitRight ← match pn.right with
        | none => pure false
        | some pr => do pure ((← readN s pr).key == oldk)
      if hitRight then do
        let s ← setRight s p (some new_root)
        setParent s new_root (some p)
      else do
        let hitLeft ← match pn.left with
          | none => pure false
          | some pl => do pure ((← readN s pl).key == oldk)
        if hitLeft then do
          let s ← setLeft s p (some new_root)
          setParent s new_root (some p)
        else pure s

/-- `SplayTree._rotate_to_root(node)`: zig / zig-zig / zig-zag steps,
then recurse on the same node; when a stale grandparent matches none of
the four configurations the body rotates nothing and the recursion
makes no progress. -/
def SplayTree.rotate_to_root : Nat → PyState → Nat → Except PyErr PyState
  | 0, _, _ => .error .fuel
  | f + 1, s, i => do
    let n ← readN s i
    match n.parent with
    | none => .ok s
    | some p => do
      let pn ← readN s p
      let s ← (match pn.parent with
        | none =>
          if pn.left = some i then SplayTree.rotate_right s p
          else SplayTree.rotate_left s p
        | some g => do
          let gn ← readN s g
          if gn.left == some p && pn.left == some i then do
            let s ← SplayTree.rotate_right s g
            SplayTree.rotate_right s p
          else if gn.right == some p && pn.right == some i then do
            let s ← SplayTree.rotate_left s g
            SplayTree.rotate_left s p
          else if gn.left == some p && pn.right == some i then do
            let s ← SplayTree.rotate_left s p
            SplayTree.rotate_right s g
          else if gn.right == some p && pn.left == some i then do
            let s ← SplayTree.rotate_right s p
            SplayTree.rotate_left s g
          else pure s)
      SplayTree.rotate_to_root f s i

/-- `SplayTree.get_node(key)`: the splaying lookup. -/
def SplayTree.get_node : Nat → PyState → Int → Option Nat →
    Except PyErr (Option Nat × PyState)
  | 0, _, _, _ => .error .fuel
  | f + 1, s, key, start =>
    match start with
    | none => .ok (none, s)
    | some i => do
      let n ← readN s i
      if key = n.key then do
        let s ← SplayTree.rotate_to_root f s i
        .ok (some i, s)
      else if key > n.key then SplayTree.get_node f s key n.right
      else SplayTree.get_node f s key n.left

/-- Recursive branch of `SplayTree.insert`: attach a plain `Node` and
splay it to the root. -/
def SplayTree.insert_at : Nat → PyState → Int → Int → Nat → Except PyErr PyState
  | 0, _, _, _, _ => .error .fuel
  | f + 1, s, key, value, parentId => do
    let (s, childId) := allocN s (mkNode key value)
    let parent ← readN s parentId
    if key > parent.key then
      match parent.right with
      | none => do
        let s ← setRight s parentId (some childId)
        let s ← setParent s childId (some parentId)
        SplayTree.rotate_to_root f s childId
      | some r => SplayTree.insert_at f s key value r
    else
      match parent.left with
      | none => do
        let s ← setLeft s parentId (some childId)
        let s ← setParent s childId (some parentId)
        SplayTree.rotate_to_root f s childId
      | some l => SplayTree.insert_at f s key value l

/-- `SplayTree.insert(key, value)`: the presence test uses
`_get_node_without_splaying`, i.e. the BSTree lookup. -/
def SplayTree.insert (fuel : Nat) (s : PyState) (key value : Int) :
    Except PyErr PyState :=
  match s.Root with
  | none =>
    let (s, rid) := allocN s (mkNode key value)
    .ok { s with Root := some rid }
  | some r => do
    match ← BSTree.get_node fuel s key (some r) with
    | some _ => .ok s
    | none => SplayTree.insert_at fuel s key value r

/-- `SplayTree._delete_leaf(node)`: as BSTree, but a parentless leaf
clears the root reference. -/
def SplayTree.delete_leaf (s : PyState) (i : Nat) : Except PyErr PyState := do
  let n ← readN s i
  match n.parent with
  | none => .ok { s with Root := none }
  | some p => do
    let pn ← readN s p
    if pn.left = some i then setLeft s p none
    else setRight s p none

/-- `SplayTree._delete_leaf_parent` is textually identical to
`BSTree._delete_leaf_parent`. -/
def SplayTree.delete_leaf_parent (s : PyState) (i : Nat) : Except PyErr PyState :=
  BSTree.delete_leaf_parent s i

/-- `SplayTree._delete_node(node)`: the BSTree algorithm with the splay
leaf helpers. -/
def SplayTree.delete_node (fuel : Nat) (s : PyState) (i : Nat) :
    Except PyErr PyState := do
  let n ← readN s i
  let hl ← BSTree.get_height fuel s n.left
  let hr ← BSTree.get_height fuel s n.right
  if hl > hr then do
    let to_switch ← BSTree.get_max fuel s n.left
    let s ← BSTree.switch_nodes s i to_switch
    let tsw ← readN s to_switch
    let nn ← readN s i
    if tsw.right = none ∧ tsw.left = none then do
      let to_delete ← BSTree.get_max fuel s nn.left
      SplayTree.delete_leaf s to_delete
    else do
      let to_delete ← BSTree.get_max fuel s nn.left
      SplayTree.delete_leaf_parent s to_delete
  else do
    let to_switch ← BSTree.get_min fuel s n.right
    let s ← BSTree.switch_nodes s i to_switch
    let tsw ← readN s to_switch
    let nn ← readN s i
    if tsw.right = none ∧ tsw.left = none then do
      let to_delete ← BSTree.get_min fuel s nn.right
      SplayTree.delete_leaf s to_delete
    else do
      let to_delete ← BSTree.get_min fuel s nn.right
      SplayTree.delete_leaf_parent s to_delete

/-- `SplayTree.delete(key)`: reads `node.parent` before testing `node`
for `None`, so deleting an absent key raises `AttributeError`;
otherwise delete structurally, then splay the removed node's former
parent. -/
def SplayTree.delete (fuel : Nat) (s : PyState) (key : Int) :
    Except PyErr PyState := do
  let node ← BSTree.get_node fuel s key s.Root
  let parent ← (match node with
    | none => .error .attr
    | some i => do pure (← readN s i).parent)
  match node with
  | none => .ok s
  | some i => do
    let n ← readN s i
    let s ← (if n.left = none ∧ n.right = none then SplayTree.delete_leaf s i
      else if n.left = none ∨ n.right = none then SplayTree.delete_leaf_parent s i
      else SplayTree.delete_node fuel s i)
    match parent with
    | none => .ok s
    | some p => SplayTree.rotate_to_root fuel s p

def runSplay (fuel : Nat) : List Op → PyState → Except PyErr PyState
  | [], s => .ok s
  | op :: ops, s => do
    let s ← match op with
      | .ins k v => SplayTree.insert fuel s k v
      | .del k => SplayTree.delete fuel s k
    runSplay fuel ops s

/-- avltree.py line 124: `AVLTree.levelorder` executes
`return BSTree.levelorder(self,*args)` but `args` is not bound inside
`def levelorder(self)`, so every call raises `NameError`. -/
def AVLTree.levelorder (_fuel : Nat) (_s : PyState) :
    Except PyErr (List (Option Nat)) := .error .name

/-- rbtree.py line 165: same unbound `*args`. -/
def RBTree.levelorder (_fuel : Nat) (_s : PyState) :
    Except PyErr (List (Option Nat)) := .error .name

/-- splaytree.py line 112: same unbound `*args`. -/
def SplayTree.levelorder (_fuel : Nat) (_s : PyState) :
    Except PyErr (List (Option Nat)) := .error .name

/-! ## Observables -/

/-- Key stored at the node the tree's root reference points to. -/
def rootKey (s : PyState) : Option Int :=
  s.Root.bind fun r => (lookupN s.heap r).map PyNode.key

/-- Color of the root node (true = red). -/
def rootIsRed (s : PyState) : Option Bool :=
  s.Root.bind fun r => (lookupN s.heap r).map PyNode.red

/-- Stored AVL balance of the root node. -/
def rootBalance (s : PyState) : Option Int :=
  s.Root.bind fun r => (lookupN s.heap r).map PyNode.balance

/-! ## Predicates and concrete states used by the claim theorems -/

/-- Key/value agreement: every object identity holds the same key and
value in both states. -/
def kvAgree (s t : PyState) : Prop :=
  ∀ a, (lookupN t.heap a).map (fun x => (x.key, x.value))
    = (lookupN s.heap a).map (fun x => (x.key, x.value))

/-- No reference to object `m` anywhere in the state: it is not the
root, and no cell's left, right or parent field mentions it. -/
def unrefAll (s : PyState) (m : Nat) : Prop :=
  s.Root ≠ some m ∧
  ∀ a na, lookupN s.heap a = some na →
    na.left ≠ some m ∧ na.right ≠ some m ∧ na.parent ≠ some m

/-- Well-formedness facts used by the two-child deletion theorem: object
identities are unambiguous, keys are unique, child links are matched by
parent back-references (and never self-referential), no object is
referenced as a child twice, the two child slots of a cell never agree
unless absent, the root has no parent, and parent references point to an
actual parent. -/
structure WFs (s : PyState) : Prop where
  nodup : (s.heap.map Prod.fst).Nodup
  keys : ∀ p ∈ s.heap, ∀ q ∈ s.heap, (Prod.snd p).key = (Prod.snd q).key →
    Prod.fst p = Prod.fst q
  childBack : ∀ p ∈ s.heap, ∀ b : Nat,
    ((Prod.snd p).left = some b ∨ (Prod.snd p).right = some b) →
    ∃ nb, lookupN s.heap b = some nb ∧ nb.parent = some (Prod.fst p) ∧
      b ≠ Prod.fst p
  uref : ∀ p ∈ s.heap, ∀ q ∈ s.heap, ∀ b : Nat,
    ((Prod.snd p).left = some b ∨ (Prod.snd p).right = some b) →
    ((Prod.snd q).left = some b ∨ (Prod.snd q).right = some b) →
    Prod.fst p = Prod.fst q
  twosep : ∀ p ∈ s.heap, (Prod.snd p).left = (Prod.snd p).right →
    (Prod.snd p).left = none
  rootp : ∀ rt nrt, s.Root = some rt → lookupN s.heap rt = some nrt →
    nrt.parent = none
  parentChild : ∀ p ∈ s.heap, ∀ a : Nat, (Prod.snd p).parent = some a →
    ∃ na, lookupN s.heap a = some na ∧
      (na.left = some (Prod.fst p) ∨ na.right = some (Prod.fst p))

/-- The heap after `_switch_nodes` exchanges keys and values of cells
`i` and `m` (the four attribute assignments of the source, in order). -/
def swapKV (s : PyState) (i m : Nat) (n mn : PyNode) : PyState :=
  writeN (writeN (writeN (writeN s i { n with key := mn.key })
    i { n with key := mn.key, value := mn.value })
    m { mn with key := n.key }) m { mn with key := n.key, value := n.value }

/-- The two child-link slots of a node, for bounded well-formedness
checks. -/
def linkPairs (n : PyNode) : List (Option Nat) := [n.left, n.right]

/-- Executable check of the `WFs` well-formedness facts on a concrete
state: every unbounded quantifier of `WFs` is driven by a field value,
so it can be replaced by a match on that field. -/
def WFsChk (s : PyState) : Bool :=
  decide (s.heap.map Prod.fst).Nodup &&
  (s.heap.all fun p => s.heap.all fun q =>
    p.2.key != q.2.key || p.1 == q.1) &&
  (s.heap.all fun p => (linkPairs p.2).all fun c =>
    match c with
    | none => true
    | some b =>
      match lookupN s.heap b with
      | none => false
      | some nb => nb.parent == some p.1 && b != p.1) &&
  (s.heap.all fun p => s.heap.all fun q =>
    (linkPairs p.2).all fun c => (linkPairs q.2).all fun d =>
      c == none || c != d || p.1 == q.1) &&
  (s.heap.all fun p => p.2.left != p.2.right || p.2.left == none) &&
  (match s.Root with
   | none => true
   | some rt =>
     match lookupN s.heap rt with
     | none => true
     | some nrt => nrt.parent == none) &&
  (s.heap.all fun p =>
    match p.2.parent with
    | none => true
    | some a =>
      match lookupN s.heap a with
      | none => false
      | some na => na.left == some p.1 || na.right == some p.1)

/-- A node record with zero metadata, for concrete witness states. -/
def c5node (l r p : Option Nat) (k v : Int) : PyNode :=
  { left := l, right := r, parent := p, key := k, value := v,
    height := 0, balance := 0, red := false }

/-- A three-node search tree: root key 2 with children 1 and 3, both
subtrees of height 0 (the tie case). -/
def c5s : PyState :=
  { Root := some 0,
    heap := [(0, c5node (some 1) (some 2) none 2 20),
             (1, c5node none none (some 0) 1 10),
             (2, c5node none none (some 0) 3 30)],
    fresh := 3 }

/-- The state `delete(2)` produces from `c5s`: the root now carries key
3 / value 30 and the detached cell 2 is unreferenced. -/
def c5s2 : PyState :=
  { Root := some 0,
    heap := [(0, c5node (some 1) none none 3 30),
             (1, c5node none none (some 0) 1 10),
             (2, c5node none none (some 0) 2 20)],
    fresh := 3 }

/-- The splay state reached by `[insert 1, insert 2, delete 2]`: the
root is node 0 (key 1) whose parent reference is stale, pointing at the
removed childless node 1 (key 2). -/
def splayC6state : PyState :=
  { Root := some 0,
    heap := [(1, mkNode 2 0), (0, { mkNode 1 0 with parent := some 1 })],
    fresh := 2 }

/-- The state inside `SplayTree.insert 3` right after node 2 (key 3) is
attached below the root: `_rotate_to_root(2)` starts here. -/
def splayC6att : PyState :=
  { Root := some 0,
    heap := [(2, { mkNode 3 7 with parent := some 0 }),
             (1, mkNode 2 0),
             (0, { mkNode 1 0 with parent := some 1, right := some 2 })],
    fresh := 3 }

/-! ## Heap infrastructure lemmas (for the two-child deletion theorem) -/

theorem updateN_map_fst (h : List (Nat × PyNode)) (i : Nat) (x : PyNode) :
    (updateN h i x).map Prod.fst = h.map Prod.fst := by
  induction h with
  | nil => rfl
  | cons p t ih =>
    obtain ⟨j, n⟩ := p
    by_cases hj : j = i <;> simp [updateN, hj, ih]

theorem lookupN_updateN_self (h : List (Nat × PyNode)) (i : Nat) (x n0 : PyNode)
    (h0 : lookupN h i = some n0) : lookupN (updateN h i x) i = some x := by
  induction h with
  | nil => simp [lookupN] at h0
  | cons p t ih =>
    obtain ⟨j, n⟩ := p
    by_cases hj : j = i
    · simp [updateN, lookupN, hj]
    · simp only [updateN, lookupN, if_neg hj] at h0 ⊢
      exact ih h0

theorem lookupN_updateN_ne (h : List (Nat × PyNode)) (i j : Nat) (x : PyNode)
    (hij : j ≠ i) : lookupN (updateN h i x) j = lookupN h j := by
  induction h with
  | nil => rfl
  | cons p t ih =>
    obtain ⟨a, n⟩ := p
    by_cases ha : a = i
    · have haj : ¬ (a = j) := fun he => hij (he.symm.trans ha)
      simp only [updateN, if_pos ha, lookupN, if_neg haj]
    · simp only [updateN, if_neg ha, lookupN]
      by_cases haj : a = j <;> simp [haj, ih]

theorem mem_of_lookupN (h : List (Nat × PyNode)) (i : Nat) (n : PyNode)
    (hl : lookupN h i = some n) : (i, n) ∈ h := by
  induction h with
  | nil => simp [lookupN] at hl
  | cons p t ih =>
    obtain ⟨j, x⟩ := p
    by_cases hj : j = i
    · subst hj
      simp only [lookupN, if_pos rfl] at hl
      simp [Option.some.inj hl]
    · simp only [lookupN, if_neg hj] at hl
      exact List.mem_cons_of_mem _ (ih hl)

theorem lookupN_of_mem_nodup (h : List (Nat × PyNode)) (i : Nat) (n : PyNode)
    (hnd : (h.map Prod.fst).Nodup) (hm : (i, n) ∈ h) : lookupN h i = some n := by
  induction h with
  | nil => simp at hm
  | cons p t ih =>
    obtain ⟨j, x⟩ := p
    simp only [List.map_cons, List.nodup_cons] at hnd
    rcases List.mem_cons.mp hm with he | ht
    · obtain ⟨h1, h2⟩ := Prod.mk.injEq .. ▸ congrArg id he
      simp only [Prod.mk.injEq] at he
      simp [lookupN, he.1, he.2]
    · have hji : j ≠ i := by
        intro he2
        exact hnd.1 (he2 ▸ List.mem_map_of_mem Prod.fst ht)
      simp only [lookupN, if_neg hji]
      exact ih hnd.2 ht

theorem mem_updateN (h : List (Nat × PyNode)) (i : Nat) (x : PyNode)
    (p : Nat × PyNode) (hm : p ∈ updateN h i x) : p = (i, x) ∨ p ∈ h := by
  induction h with
  | nil => simp [updateN] at hm
  | cons q t ih =>
    obtain ⟨j, n⟩ := q
    by_cases hj : j = i
    · subst hj
      simp only [updateN, if_pos rfl] at hm
      rcases List.mem_cons.mp hm with he | ht
      · exact Or.inl (by simpa using he)
      · exact Or.inr (List.mem_cons_of_mem _ ht)
    · simp only [updateN, if_neg hj] at hm
      rcases List.mem_cons.mp hm with he | ht
      · exact Or.inr (he ▸ List.mem_cons_self _ _)
      · rcases ih ht with h1 | h2
        · exact Or.inl h1
        · exact Or.inr (List.mem_cons_of_mem _ h2)

theorem lookup_writeN_self (s : PyState) (i : Nat) (x n0 : PyNode)
    (h0 : lookupN s.heap i = some n0) :
    lookupN (writeN s i x).heap i = some x :=
  lookupN_updateN_self s.heap i x n0 h0

theorem lookup_writeN_ne (s : PyState) (i j : Nat) (x : PyNode) (hij : j ≠ i) :
    lookupN (writeN s i x).heap j = lookupN s.heap j :=
  lookupN_updateN_ne s.heap i j x hij

theorem writeN_Root (s : PyState) (i : Nat) (x : PyNode) :
    (writeN s i x).Root = s.Root := rfl

/-! ## Query lemmas -/

theorem get_node_key (fuel : Nat) (s : PyState) (k : Int) :
    ∀ (x : Option Nat) (i : Nat), BSTree.get_node fuel s k x = .ok (some i) →
    ∃ n, lookupN s.heap i = some n ∧ n.key = k := by
  induction fuel with
  | zero => intro x i h; simp [BSTree.get_node] at h
  | succ f ih =>
    intro x i h
    match x with
    | none => simp [BSTree.get_node] at h
    | some a =>
      simp only [BSTree.get_node] at h
      cases hl : lookupN s.heap a with
      | none => simp [readN, hl, Except.bind, bind] at h
      | some n =>
        simp only [readN, hl, Except.bind, bind] at h
        split_ifs at h with h1 h2
        · have hai : a = i := Option.some.inj (Except.ok.inj h)
          exact ⟨n, hai ▸ hl, h1.symm⟩
        · exact ih n.right i h
        · exact ih n.left i h

theorem get_node_root_some (fuel : Nat) (s : PyState) (k : Int) (i : Nat)
    (h : BSTree.get_node fuel s k s.Root = .ok (some i)) :
    ∃ rt, s.Root = some rt := by
  cases hr : s.Root with
  | none =>
    rw [hr] at h
    cases fuel <;> simp [BSTree.get_node] at h
  | some rt => exact ⟨rt, rfl⟩

theorem get_max_cell (fuel : Nat) (s : PyState) :
    ∀ (x m : Nat), BSTree.get_max fuel s (some x) = .ok m →
    ∃ mn, lookupN s.heap m = some mn ∧ mn.right = none := by
  induction fuel with
  | zero => intro x m h; simp [BSTree.get_max] at h
  | succ f ih =>
    intro x m h
    simp only [BSTree.get_max] at h
    cases hl : lookupN s.heap x with
    | none => simp [readN, hl, Except.bind, bind] at h
    | some n =>
      simp only [readN, hl, Except.bind, bind] at h
      cases hr : n.right with
      | none =>
        rw [hr] at h
        exact ⟨n, by simpa [← (Except.ok.inj h : x = m)] using hl, hr⟩
      | some r =>
        rw [hr] at h
        exact ih r m h

theorem get_max_link (fuel : Nat) (s : PyState) :
    ∀ (x m : Nat), BSTree.get_max fuel s (some x) = .ok m →
    m = x ∨ ∃ P pn, lookupN s.heap P = some pn ∧ pn.right = some m := by
  induction fuel with
  | zero => intro x m h; simp [BSTree.get_max] at h
  | succ f ih =>
    intro x m h
    simp only [BSTree.get_max] at h
    cases hl : lookupN s.heap x with
    | none => simp [readN, hl, Except.bind, bind] at h
    | some n =>
      simp only [readN, hl, Except.bind, bind] at h
      cases hr : n.right with
      | none =>
        rw [hr] at h
        exact Or.inl (Except.ok.inj h).symm
      | some r =>
        rw [hr] at h
        rcases ih r m h with he | hex
        · exact Or.inr ⟨x, n, hl, he ▸ hr⟩
        · exact Or.inr hex

theorem get_min_cell (fuel : Nat) (s : PyState) :
    ∀ (x m : Nat), BSTree.get_min fuel s (some x) = .ok m →
    ∃ mn, lookupN s.heap m = some mn ∧ mn.left = none := by
  induction fuel with
  | zero => intro x m h; simp [BSTree.get_min] at h
  | succ f ih =>
    intro x m h
    simp only [BSTree.get_min] at h
    cases hl : lookupN s.heap x with
    | none => simp [readN, hl, Except.bind, bind] at h
    | some n =>
      simp only [readN, hl, Except.bind, bind] at h
      cases hr : n.left with
      | none =>
        rw [hr] at h
        exact ⟨n, by simpa [← (Except.ok.inj h : x = m)] using hl, hr⟩
      | some l =>
        rw [hr] at h
        exact ih l m h

theorem get_min_link (fuel : Nat) (s : PyState) :
    ∀ (x m : Nat), BSTree.get_min fuel s (some x) = .ok m →
    m = x ∨ ∃ P pn, lookupN s.heap P = some pn ∧ pn.left = some m := by
  induction fuel with
  | zero => intro x m h; simp [BSTree.get_min] at h
  | succ f ih =>
    intro x m h
    simp only [BSTree.get_min] at h
    cases hl : lookupN s.heap x with
    | none => simp [readN, hl, Except.bind, bind] at h
    | some n =>
      simp only [readN, hl, Except.bind, bind] at h
      cases hr : n.left with
      | none =>
        rw [hr] at h
        exact Or.inl (Except.ok.inj h).symm
      | some l =>
        rw [hr] at h
        rcases ih l m h with he | hex
        · exact Or.inr ⟨x, n, hl, he ▸ hr⟩
        · exact Or.inr hex

theorem get_max_congr (fuel : Nat) (s s2 : PyState)
    (hagree : ∀ a, (lookupN s2.heap a).map PyNode.right
      = (lookupN s.heap a).map PyNode.right) :
    ∀ (x : Option Nat), BSTree.get_max fuel s2 x = BSTree.get_max fuel s x := by
  induction fuel with
  | zero => intro x; rfl
  | succ f ih =>
    intro x
    match x with
    | none => rfl
    | some a =>
      simp only [BSTree.get_max]
      have ha := hagree a
      cases hl : lookupN s.heap a with
      | none =>
        rw [hl] at ha
        cases hl2 : lookupN s2.heap a with
        | none => simp [readN, hl, hl2, Except.bind, bind]
        | some n2 => rw [hl2] at ha; exact absurd ha (by simp)
      | some n =>
        rw [hl] at ha
        cases hl2 : lookupN s2.heap a with
        | none => rw [hl2] at ha; exact absurd ha (by simp)
        | some n2 =>
          rw [hl2] at ha
          simp only [Option.map_some'] at ha
          simp only [readN, hl, hl2, Except.bind, bind]
          rw [Option.some.inj ha]
          cases n.right with
          | none => rfl
          | some r => exact ih (some r)

theorem get_min_congr (fuel : Nat) (s s2 : PyState)
    (hagree : ∀ a, (lookupN s2.heap a).map PyNode.left
      = (lookupN s.heap a).map PyNode.left) :
    ∀ (x : Option Nat), BSTree.get_min fuel s2 x = BSTree.get_min fuel s x := by
  induction fuel with
  | zero => intro x; rfl
  | succ f ih =>
    intro x
    match x with
    | none => rfl
    | some a =>
      simp only [BSTree.get_min]
      have ha := hagree a
      cases hl : lookupN s.heap a with
      | none =>
        rw [hl] at ha
        cases hl2 : lookupN s2.heap a with
        | none => simp [readN, hl, hl2, Except.bind, bind]
        | some n2 => rw [hl2] at ha; exact absurd ha (by simp)
      | some n =>
        rw [hl] at ha
        cases hl2 : lookupN s2.heap a with
        | none => rw [hl2] at ha; exact absurd ha (by simp)
        | some n2 =>
          rw [hl2] at ha
          simp only [Option.map_some'] at ha
          simp only [readN, hl, hl2, Except.bind, bind]
          rw [Option.some.inj ha]
          cases n.left with
          | none => rfl
          | some l => exact ih (some l)

theorem kvAgree_refl (s : PyState) : kvAgree s s := fun _ => rfl

theorem kvAgree_trans {s t u : PyState} (h1 : kvAgree s t) (h2 : kvAgree t u) :
    kvAgree s u := fun a => (h2 a).trans (h1 a)

theorem swapKV_lookup_i (s : PyState) (i m : Nat) (n mn : PyNode)
    (hi : lookupN s.heap i = some n) (him : i ≠ m) :
    lookupN (swapKV s i m n mn).heap i
      = some { n with key := mn.key, value := mn.value } := by
  unfold swapKV
  rw [lookup_writeN_ne _ m i _ him, lookup_writeN_ne _ m i _ him]
  exact lookup_writeN_self _ i _ _ (lookup_writeN_self _ i _ _ hi)

theorem swapKV_lookup_m (s : PyState) (i m : Nat) (n mn : PyNode)
    (hm : lookupN s.heap m = some mn) (him : i ≠ m) :
    lookupN (swapKV s i m n mn).heap m
      = some { mn with key := n.key, value := n.value } := by
  unfold swapKV
  have l3 : lookupN (writeN (writeN s i { n with key := mn.key }) i
      { n with key := mn.key, value := mn.value }).heap m = some mn := by
    rw [lookup_writeN_ne _ i m _ (Ne.symm him), lookup_writeN_ne _ i m _ (Ne.symm him)]
    exact hm
  exact lookup_writeN_self _ m _ _ (lookup_writeN_self _ m _ _ l3)

theorem swapKV_lookup_other (s : PyState) (i m : Nat) (n mn : PyNode)
    (a : Nat) (hai : a ≠ i) (ham : a ≠ m) :
    lookupN (swapKV s i m n mn).heap a = lookupN s.heap a := by
  unfold swapKV
  rw [lookup_writeN_ne _ m a _ ham, lookup_writeN_ne _ m a _ ham,
    lookup_writeN_ne _ i a _ hai, lookup_writeN_ne _ i a _ hai]

theorem swapKV_Root (s : PyState) (i m : Nat) (n mn : PyNode) :
    (swapKV s i m n mn).Root = s.Root := rfl

theorem swapKV_fresh (s : PyState) (i m : Nat) (n mn : PyNode) :
    (swapKV s i m n mn).fresh = s.fresh := rfl

/-- Characterization of `BSTree._switch_nodes(node1, node2)` in the
configuration produced by two-child deletion (`node2` is never the
root): the keys and values of the two operand cells are exchanged and
nothing else changes, in all reachable branches. -/
theorem switch_nodes_spec (s : PyState) (i m rt : Nat) (n mn nrt : PyNode)
    (hroot : s.Root = some rt)
    (hi : lookupN s.heap i = some n) (hm : lookupN s.heap m = some mn)
    (hrt : lookupN s.heap rt = some nrt)
    (him : i ≠ m) (hmrt : m ≠ rt)
    (hkey_iff : n.key = nrt.key ↔ i = rt)
    (hmkey : mn.key ≠ nrt.key) :
    BSTree.switch_nodes s i m = .ok (swapKV s i m n mn) := by
  have him' : m ≠ i := Ne.symm him
  have l1 : lookupN (writeN s i { n with key := mn.key }).heap m = some mn := by
    rw [lookup_writeN_ne s i m _ him']; exact hm
  have l2 : lookupN (writeN s i { n with key := mn.key }).heap i
      = some { n with key := mn.key } := lookup_writeN_self s i _ n hi
  have l3 : lookupN (writeN (writeN s i { n with key := mn.key }) i
      { n with key := mn.key, value := mn.value }).heap m = some mn := by
    rw [lookup_writeN_ne _ i m _ him']; exact l1
  have l5 : lookupN (writeN (writeN (writeN s i { n with key := mn.key }) i
      { n with key := mn.key, value := mn.value }) m
      { mn with key := n.key }).heap m = some { mn with key := n.key } :=
    lookup_writeN_self _ m _ mn l3
  by_cases hirt : i = rt
  · -- branch 1: node1 is the root
    have hn_nrt : n = nrt := by
      rw [hirt] at hi; exact Option.some.inj (hi.symm.trans hrt)
    have hb1 : n.key = nrt.key := by rw [hn_nrt]
    subst hirt
    simp only [BSTree.switch_nodes, readN, hi, hroot, readOpt,
      Except.bind, bind, if_pos hb1, setKey, setValue, hm, l1, l2, l3, l5]
    rfl
  · -- branch 3 (branch 2 is skipped because node2 is not the root)
    have hb1 : ¬ (n.key = nrt.key) := fun he => hirt (hkey_iff.mp he)
    simp only [BSTree.switch_nodes, readN, hi, hroot, readOpt,
      Except.bind, bind, hm, hrt, if_neg hb1, if_neg hmkey,
      setKey, setValue, l1, l2, l3, l5]
    rfl

theorem kv_writeN (s : PyState) (i : Nat) (n0 x : PyNode)
    (h0 : lookupN s.heap i = some n0)
    (hk : x.key = n0.key) (hv : x.value = n0.value) :
    ∀ a, (lookupN (writeN s i x).heap a).map (fun y => (y.key, y.value))
      = (lookupN s.heap a).map (fun y => (y.key, y.value)) := by
  intro a
  by_cases hai : a = i
  · subst hai
    rw [lookup_writeN_self s a x n0 h0, h0]
    simp [hk, hv]
  · rw [lookup_writeN_ne s i a x hai]

/-- `BSTree._delete_leaf` on a node with a live parent: the matching
child slot of the parent is cleared, nothing else changes. -/
theorem delete_leaf_spec (s : PyState) (m P : Nat) (mn pn : PyNode)
    (hm : lookupN s.heap m = some mn) (hp : lookupN s.heap P = some pn)
    (hpar : mn.parent = some P) :
    (pn.left = some m →
      BSTree.delete_leaf s m = .ok (writeN s P { pn with left := none })) ∧
    (pn.left ≠ some m →
      BSTree.delete_leaf s m = .ok (writeN s P { pn with right := none })) := by
  constructor
  · intro hl
    simp only [BSTree.delete_leaf, readN, hm, hpar, hp, Except.bind, bind,
      if_pos hl, setLeft]
  · intro hl
    simp only [BSTree.delete_leaf, readN, hm, hpar, hp, Except.bind, bind,
      if_neg hl, setRight]

/-- A lookup descent cannot reach a node when the only references to it
and to its sole referencer form a two-cycle away from the start. -/
theorem get_node_avoid_pair (s : PyState) (k : Int) (u v : Nat)
    (hu : ∀ a na, lookupN s.heap a = some na →
      (na.left = some u ∨ na.right = some u) → a = v)
    (hv : ∀ a na, lookupN s.heap a = some na →
      (na.left = some v ∨ na.right = some v) → a = u) :
    ∀ fuel x, x ≠ u → x ≠ v → BSTree.get_node fuel s k (some x) ≠ .ok (some u) := by
  intro fuel
  induction fuel with
  | zero => intro x _ _ h; simp [BSTree.get_node] at h
  | succ f ih =>
    intro x hxu hxv h
    simp only [BSTree.get_node] at h
    cases hl : lookupN s.heap x with
    | none => simp [readN, hl, Except.bind, bind] at h
    | some nx =>
      simp only [readN, hl, Except.bind, bind] at h
      split_ifs at h with h1 h2
      · exact hxu (Option.some.inj (Except.ok.inj h))
      · cases hr : nx.right with
        | none => rw [hr] at h; cases f <;> simp [BSTree.get_node] at h
        | some y =>
          rw [hr] at h
          have hyu : y ≠ u := fun he =>
            hxv (hu x nx hl (Or.inr (he ▸ hr)))
          have hyv : y ≠ v := fun he =>
            hxu (hv x nx hl (Or.inr (he ▸ hr)))
          exact ih y hyu hyv h
      · cases hr : nx.left with
        | none => rw [hr] at h; cases f <;> simp [BSTree.get_node] at h
        | some y =>
          rw [hr] at h
          have hyu : y ≠ u := fun he =>
            hxv (hu x nx hl (Or.inl (he ▸ hr)))
          have hyv : y ≠ v := fun he =>
            hxu (hv x nx hl (Or.inl (he ▸ hr)))
          exact ih y hyu hyv h

/-- Same two-cycle avoidance for the all-right descent of `get_max`. -/
theorem get_max_avoid_pair (s : PyState) (u v : Nat)
    (hu : ∀ a na, lookupN s.heap a = some na →
      (na.left = some u ∨ na.right = some u) → a = v)
    (hv : ∀ a na, lookupN s.heap a = some na →
      (na.left = some v ∨ na.right = some v) → a = u) :
    ∀ fuel x, x ≠ u → x ≠ v → BSTree.get_max fuel s (some x) ≠ .ok u := by
  intro fuel
  induction fuel with
  | zero => intro x _ _ h; simp [BSTree.get_max] at h
  | succ f ih =>
    intro x hxu hxv h
    simp only [BSTree.get_max] at h
    cases hl : lookupN s.heap x with
    | none => simp [readN, hl, Except.bind, bind] at h
    | some nx =>
      simp only [readN, hl, Except.bind, bind] at h
      cases hr : nx.right with
      | none => rw [hr] at h; exact hxu (Except.ok.inj h)
      | some y =>
        rw [hr] at h
        have hyu : y ≠ u := fun he => hxv (hu x nx hl (Or.inr (he ▸ hr)))
        have hyv : y ≠ v := fun he => hxu (hv x nx hl (Or.inr (he ▸ hr)))
        exact ih y hyu hyv h

/-- Same for the all-left descent of `get_min`. -/
theorem get_min_avoid_pair (s : PyState) (u v : Nat)
    (hu : ∀ a na, lookupN s.heap a = some na →
      (na.left = some u ∨ na.right = some u) → a = v)
    (hv : ∀ a na, lookupN s.heap a = some na →
      (na.left = some v ∨ na.right = some v) → a = u) :
    ∀ fuel x, x ≠ u → x ≠ v → BSTree.get_min fuel s (some x) ≠ .ok u := by
  intro fuel
  induction fuel with
  | zero => intro x _ _ h; simp [BSTree.get_min] at h
  | succ f ih =>
    intro x hxu hxv h
    simp only [BSTree.get_min] at h
    cases hl : lookupN s.heap x with
    | none => simp [readN, hl, Except.bind, bind] at h
    | some nx =>
      simp only [readN, hl, Except.bind, bind] at h
      cases hr : nx.left with
      | none => rw [hr] at h; exact hxu (Except.ok.inj h)
      | some y =>
        rw [hr] at h
        have hyu : y ≠ u := fun he => hxv (hu x nx hl (Or.inl (he ▸ hr)))
        have hyv : y ≠ v := fun he => hxu (hv x nx hl (Or.inl (he ▸ hr)))
        exact ih y hyu hyv h

/-- `BSTree._delete_leaf_parent` on the max-of-left-subtree successor
(no right child, one left child `c`): splice `c` into the parent slot,
clear the successor's child link; keys and values are untouched and the
successor ends unreferenced. -/
theorem delete_leaf_parent_spec_max (s : PyState) (m P c rt : Nat)
    (mn pn nc nrt : PyNode)
    (hroot : s.Root = some rt)
    (hm : lookupN s.heap m = some mn) (hp : lookupN s.heap P = some pn)
    (hc : lookupN s.heap c = some nc) (hrt : lookupN s.heap rt = some nrt)
    (hpar : mn.parent = some P)
    (hkey : mn.key ≠ nrt.key)
    (hmr : mn.right = none) (hml : mn.left = some c)
    (hcm : c ≠ m) (hPm : P ≠ m) (hcP : c ≠ P)
    (hside : pn.left = some m ∨ pn.right = some m)
    (hnotboth : ¬ (pn.left = some m ∧ pn.right = some m)) :
    ∃ s2, BSTree.delete_leaf_parent s m = .ok s2 ∧
      s2.Root = s.Root ∧ s2.fresh = s.fresh ∧
      kvAgree s s2 ∧
      lookupN s2.heap m = some { mn with left := none } ∧
      ((∀ a na, lookupN s.heap a = some na →
          (na.left = some m ∨ na.right = some m) → a = P) →
       (∀ a na, lookupN s.heap a = some na → na.parent = some m → a = c) →
       s.Root ≠ some m →
       unrefAll s2 m) := by
  have hmc : m ≠ c := Ne.symm hcm
  have hmP : m ≠ P := Ne.symm hPm
  by_cases hpr : pn.right = some m
  · -- the successor hangs on the right slot of its parent
    have lc1 : lookupN (writeN s P { pn with right := some c }).heap c
        = some nc := by
      rw [lookup_writeN_ne _ P c _ hcP]; exact hc
    have lm2 : lookupN (writeN (writeN s P { pn with right := some c }) c
        { nc with parent := some P }).heap m = some mn := by
      rw [lookup_writeN_ne _ c m _ hmc, lookup_writeN_ne _ P m _ hmP]; exact hm
    refine ⟨writeN (writeN (writeN s P { pn with right := some c }) c
      { nc with parent := some P }) m { mn with left := none },
      ?_, rfl, rfl, ?_, ?_, ?_⟩
    · simp only [BSTree.delete_leaf_parent, readN, hm, hpar, hroot, readOpt, hrt,
        Except.bind, bind, if_neg hkey, hp, if_pos hpr, hmr, hml,
        setRight, setLeft, setParent, lc1, lm2]
    · intro a
      rw [kv_writeN _ m mn { mn with left := none } lm2 rfl rfl a,
        kv_writeN _ c nc { nc with parent := some P } lc1 rfl rfl a,
        kv_writeN _ P pn { pn with right := some c } hp rfl rfl a]
    · exact lookup_writeN_self _ m _ mn lm2
    · intro honly hponly hRm
      refine ⟨hRm, ?_⟩
      intro a na hla
      by_cases ham : a = m
      · subst ham
        rw [lookup_writeN_self _ a _ mn lm2] at hla
        cases Option.some.inj hla
        refine ⟨by simp, by simp [hmr], ?_⟩
        simp only [hpar]
        exact fun he => hPm (Option.some.inj he)
      · rw [lookup_writeN_ne _ m a _ ham] at hla
        by_cases hac : a = c
        · subst hac
          rw [lookup_writeN_self _ a _ nc lc1] at hla
          cases Option.some.inj hla
          refine ⟨?_, ?_, ?_⟩
          · exact fun he => hcP (honly a nc hc (Or.inl he))
          · exact fun he => hcP (honly a nc hc (Or.inr he))
          · simp only []
            exact fun he => hPm (Option.some.inj he)
        · rw [lookup_writeN_ne _ c a _ hac] at hla
          by_cases hap : a = P
          · subst hap
            rw [lookup_writeN_self _ a _ pn hp] at hla
            cases Option.some.inj hla
            refine ⟨?_, ?_, ?_⟩
            · exact fun he => hnotboth ⟨he, hpr⟩
            · exact fun he => hcm (Option.some.inj he)
            · exact fun he => hcP (hponly a pn hp he).symm
          · rw [lookup_writeN_ne _ P a _ hap] at hla
            refine ⟨?_, ?_, ?_⟩
            · exact fun he => hap (honly a na hla (Or.inl he))
            · exact fun he => hap (honly a na hla (Or.inr he))
            · exact fun he => hac (hponly a na hla he)
  · -- the successor hangs on the left slot of its parent
    have hpl : pn.left = some m := by
      rcases hside with h | h
      · exact h
      · exact absurd h hpr
    have lc1 : lookupN (writeN s P { pn with left := some c }).heap c
        = some nc := by
      rw [lookup_writeN_ne _ P c _ hcP]; exact hc
    have lm2 : lookupN (writeN (writeN s P { pn with left := some c }) c
        { nc with parent := some P }).heap m = some mn := by
      rw [lookup_writeN_ne _ c m _ hmc, lookup_writeN_ne _ P m _ hmP]; exact hm
    refine ⟨writeN (writeN (writeN s P { pn with left := some c }) c
      { nc with parent := some P }) m { mn with left := none },
      ?_, rfl, rfl, ?_, ?_, ?_⟩
    · simp only [BSTree.delete_leaf_parent, readN, hm, hpar, hroot, readOpt, hrt,
        Except.bind, bind, if_neg hkey, hp, if_neg hpr, hmr, hml,
        setRight, setLeft, setParent, lc1, lm2]
    · intro a
      rw [kv_writeN _ m mn { mn with left := none } lm2 rfl rfl a,
        kv_writeN _ c nc { nc with parent := some P } lc1 rfl rfl a,
        kv_writeN _ P pn { pn with left := some c } hp rfl rfl a]
    · exact lookup_writeN_self _ m _ mn lm2
    · intro honly hponly hRm
      refine ⟨hRm, ?_⟩
      intro a na hla
      by_cases ham : a = m
      · subst ham
        rw [lookup_writeN_self _ a _ mn lm2] at hla
        cases Option.some.inj hla
        refine ⟨by simp, by simp [hmr], ?_⟩
        simp only [hpar]
        exact fun he => hPm (Option.some.inj he)
      · rw [lookup_writeN_ne _ m a _ ham] at hla
        by_cases hac : a = c
        · subst hac
          rw [lookup_writeN_self _ a _ nc lc1] at hla
          cases Option.some.inj hla
          refine ⟨?_, ?_, ?_⟩
          · exact fun he => hcP (honly a nc hc (Or.inl he))
          · exact fun he => hcP (honly a nc hc (Or.inr he))
          · simp only []
            exact fun he => hPm (Option.some.inj he)
        · rw [lookup_writeN_ne _ c a _ hac] at hla
          by_cases hap : a = P
          · subst hap
            rw [lookup_writeN_self _ a _ pn hp] at hla
            cases Option.some.inj hla
            refine ⟨?_, ?_, ?_⟩
            · simp only [hml]
              exact fun he => hcm (Option.some.inj he)
            · exact fun he => hpr he
            · exact fun he => hcP (hponly a pn hp he).symm
          · rw [lookup_writeN_ne _ P a _ hap] at hla
            refine ⟨?_, ?_, ?_⟩
            · exact fun he => hap (honly a na hla (Or.inl he))
            · exact fun he => hap (honly a na hla (Or.inr he))
            · exact fun he => hac (hponly a na hla he)

/-- Mirror of `delete_leaf_parent_spec_max` for the min-of-right-subtree
successor (no left child, one right child `c`). -/
theorem delete_leaf_parent_spec_min (s : PyState) (m P c rt : Nat)
    (mn pn nc nrt : PyNode)
    (hroot : s.Root = some rt)
    (hm : lookupN s.heap m = some mn) (hp : lookupN s.heap P = some pn)
    (hc : lookupN s.heap c = some nc) (hrt : lookupN s.heap rt = some nrt)
    (hpar : mn.parent = some P)
    (hkey : mn.key ≠ nrt.key)
    (hml : mn.left = none) (hmr : mn.right = some c)
    (hcm : c ≠ m) (hPm : P ≠ m) (hcP : c ≠ P)
    (hside : pn.left = some m ∨ pn.right = some m)
    (hnotboth : ¬ (pn.left = some m ∧ pn.right = some m)) :
    ∃ s2, BSTree.delete_leaf_parent s m = .ok s2 ∧
      s2.Root = s.Root ∧ s2.fresh = s.fresh ∧
      kvAgree s s2 ∧
      lookupN s2.heap m = some { mn with right := none } ∧
      ((∀ a na, lookupN s.heap a = some na →
          (na.left = some m ∨ na.right = some m) → a = P) →
       (∀ a na, lookupN s.heap a = some na → na.parent = some m → a = c) →
       s.Root ≠ some m →
       unrefAll s2 m) := by
  have hmc : m ≠ c := Ne.symm hcm
  have hmP : m ≠ P := Ne.symm hPm
  by_cases hpr : pn.right = some m
  · have lc1 : lookupN (writeN s P { pn with right := some c }).heap c
        = some nc := by
      rw [lookup_writeN_ne _ P c _ hcP]; exact hc
    have lm2 : lookupN (writeN (writeN s P { pn with right := some c }) c
        { nc with parent := some P }).heap m = some mn := by
      rw [lookup_writeN_ne _ c m _ hmc, lookup_writeN_ne _ P m _ hmP]; exact hm
    refine ⟨writeN (writeN (writeN s P { pn with right := some c }) c
      { nc with parent := some P }) m { mn with right := none },
      ?_, rfl, rfl, ?_, ?_, ?_⟩
    · simp only [BSTree.delete_leaf_parent, readN, hm, hpar, hroot, readOpt, hrt,
        Except.bind, bind, if_neg hkey, hp, if_pos hpr, hmr, hml,
        setRight, setLeft, setParent, lc1, lm2]
    · intro a
      rw [kv_writeN _ m mn { mn with right := none } lm2 rfl rfl a,
        kv_writeN _ c nc { nc with parent := some P } lc1 rfl rfl a,
        kv_writeN _ P pn { pn with right := some c } hp rfl rfl a]
    · exact lookup_writeN_self _ m _ mn lm2
    · intro honly hponly hRm
      refine ⟨hRm, ?_⟩
      intro a na hla
      by_cases ham : a = m
      · subst ham
        rw [lookup_writeN_self _ a _ mn lm2] at hla
        cases Option.some.inj hla
        refine ⟨by simp [hml], by simp, ?_⟩
        simp only [hpar]
        exact fun he => hPm (Option.some.inj he)
      · rw [lookup_writeN_ne _ m a _ ham] at hla
        by_cases hac : a = c
        · subst hac
          rw [lookup_writeN_self _ a _ nc lc1] at hla
          cases Option.some.inj hla
          refine ⟨?_, ?_, ?_⟩
          · exact fun he => hcP (honly a nc hc (Or.inl he))
          · exact fun he => hcP (honly a nc hc (Or.inr he))
          · simp only []
            exact fun he => hPm (Option.some.inj he)
        · rw [lookup_writeN_ne _ c a _ hac] at hla
          by_cases hap : a = P
          · subst hap
            rw [lookup_writeN_self _ a _ pn hp] at hla
            cases Option.some.inj hla
            refine ⟨?_, ?_, ?_⟩
            · exact fun he => hnotboth ⟨he, hpr⟩
            · exact fun he => hcm (Option.some.inj he)
            · exact fun he => hcP (hponly a pn hp he).symm
          · rw [lookup_writeN_ne _ P a _ hap] at hla
            refine ⟨?_, ?_, ?_⟩
            · exact fun he => hap (honly a na hla (Or.inl he))
            · exact fun he => hap (honly a na hla (Or.inr he))
            · exact fun he => hac (hponly a na hla he)
  · have hpl : pn.left = some m := by
      rcases hside with h | h
      · exact h
      · exact absurd h hpr
    have lc1 : lookupN (writeN s P { pn with left := some c }).heap c
        = some nc := by
      rw [lookup_writeN_ne _ P c _ hcP]; exact hc
    have lm2 : lookupN (writeN (writeN s P { pn with left := some c }) c
        { nc with parent := some P }).heap m = some mn := by
      rw [lookup_writeN_ne _ c m _ hmc, lookup_writeN_ne _ P m _ hmP]; exact hm
    refine ⟨writeN (writeN (writeN s P { pn with left := some c }) c
      { nc with parent := some P }) m { mn with right := none },
      ?_, rfl, rfl, ?_, ?_, ?_⟩
    · simp only [BSTree.delete_leaf_parent, readN, hm, hpar, hroot, readOpt, hrt,
        Except.bind, bind, if_neg hkey, hp, if_neg hpr, hmr, hml,
        setRight, setLeft, setParent, lc1, lm2]
    · intro a
      rw [kv_writeN _ m mn { mn with right := none } lm2 rfl rfl a,
        kv_writeN _ c nc { nc with parent := some P } lc1 rfl rfl a,
        kv_writeN _ P pn { pn with left := some c } hp rfl rfl a]
    · exact lookup_writeN_self _ m _ mn lm2
    · intro honly hponly hRm
      refine ⟨hRm, ?_⟩
      intro a na hla
      by_cases ham : a = m
      · subst ham
        rw [lookup_writeN_self _ a _ mn lm2] at hla
        cases Option.some.inj hla
        refine ⟨by simp [hml], by simp, ?_⟩
        simp only [hpar]
        exact fun he => hPm (Option.some.inj he)
      · rw [lookup_writeN_ne _ m a _ ham] at hla
        by_cases hac : a = c
        · subst hac
          rw [lookup_writeN_self _ a _ nc lc1] at hla
          cases Option.some.inj hla
          refine ⟨?_, ?_, ?_⟩
          · exact fun he => hcP (honly a nc hc (Or.inl he))
          · exact fun he => hcP (honly a nc hc (Or.inr he))
          · simp only []
            exact fun he => hPm (Option.some.inj he)
        · rw [lookup_writeN_ne _ c a _ hac] at hla
          by_cases hap : a = P
          · subst hap
            rw [lookup_writeN_self _ a _ pn hp] at hla
            cases Option.some.inj hla
            refine ⟨?_, ?_, ?_⟩
            · exact fun he => hcm (Option.some.inj he)
            · exact fun he => hpr he
            · exact fun he => hcP (hponly a pn hp he).symm
          · rw [lookup_writeN_ne _ P a _ hap] at hla
            refine ⟨?_, ?_, ?_⟩
            · exact fun he => hap (honly a na hla (Or.inl he))
            · exact fun he => hap (honly a na hla (Or.inr he))
            · exact fun he => hac (hponly a na hla he)

/-- `BSTree._delete_leaf` on a childless successor with a live parent:
the parent's matching slot is cleared; keys and values untouched; the
successor ends unreferenced. -/
theorem delete_leaf_clean_spec (s : PyState) (m P : Nat) (mn pn : PyNode)
    (hm : lookupN s.heap m = some mn) (hp : lookupN s.heap P = some pn)
    (hpar : mn.parent = some P)
    (hml : mn.left = none) (hmr : mn.right = none)
    (hPm : P ≠ m)
    (hside : pn.left = some m ∨ pn.right = some m)
    (hnotboth : ¬ (pn.left = some m ∧ pn.right = some m)) :
    ∃ s2, BSTree.delete_leaf s m = .ok s2 ∧
      s2.Root = s.Root ∧ s2.fresh = s.fresh ∧
      kvAgree s s2 ∧
      lookupN s2.heap m = some mn ∧
      ((∀ a na, lookupN s.heap a = some na →
          (na.left = some m ∨ na.right = some m) → a = P) →
       (∀ a na, lookupN s.heap a = some na → na.parent ≠ some m) →
       s.Root ≠ some m →
       unrefAll s2 m) := by
  have hmP : m ≠ P := Ne.symm hPm
  have hspec := delete_leaf_spec s m P mn pn hm hp hpar
  by_cases hpl : pn.left = some m
  · refine ⟨writeN s P { pn with left := none }, hspec.1 hpl, rfl, rfl, ?_, ?_, ?_⟩
    · intro a
      rw [kv_writeN _ P pn { pn with left := none } hp rfl rfl a]
    · rw [lookup_writeN_ne _ P m _ hmP]; exact hm
    · intro honly hpnone hRm
      refine ⟨hRm, ?_⟩
      intro a na hla
      by_cases hap : a = P
      · subst hap
        rw [lookup_writeN_self _ a _ pn hp] at hla
        cases Option.some.inj hla
        refine ⟨by simp, ?_, ?_⟩
        · exact fun he => hnotboth ⟨hpl, he⟩
        · exact hpnone a pn hp
      · rw [lookup_writeN_ne _ P a _ hap] at hla
        refine ⟨?_, ?_, ?_⟩
        · exact fun he => hap (honly a na hla (Or.inl he))
        · exact fun he => hap (honly a na hla (Or.inr he))
        · exact hpnone a na hla
  · refine ⟨writeN s P { pn with right := none }, hspec.2 hpl, rfl, rfl, ?_, ?_, ?_⟩
    · intro a
      rw [kv_writeN _ P pn { pn with right := none } hp rfl rfl a]
    · rw [lookup_writeN_ne _ P m _ hmP]; exact hm
    · intro honly hpnone hRm
      refine ⟨hRm, ?_⟩
      intro a na hla
      by_cases hap : a = P
      · subst hap
        rw [lookup_writeN_self _ a _ pn hp] at hla
        cases Option.some.inj hla
        refine ⟨hpl, by simp, ?_⟩
        exact hpnone a pn hp
      · rw [lookup_writeN_ne _ P a _ hap] at hla
        refine ⟨?_, ?_, ?_⟩
        · exact fun he => hap (honly a na hla (Or.inl he))
        · exact fun he => hap (honly a na hla (Or.inr he))
        · exact hpnone a na hla

/-- `_switch_nodes` never touches link fields. -/
theorem swapKV_link_agree (s : PyState) (i m : Nat) (n mn : PyNode)
    (hi : lookupN s.heap i = some n) (hm : lookupN s.heap m = some mn)
    (him : i ≠ m) :
    ∀ a, (lookupN (swapKV s i m n mn).heap a).map
        (fun x => (x.left, x.right, x.parent))
      = (lookupN s.heap a).map (fun x => (x.left, x.right, x.parent)) := by
  intro a
  by_cases hai : a = i
  · subst hai
    rw [swapKV_lookup_i s a m n mn hi him, hi]
    rfl
  · by_cases ham : a = m
    · subst ham
      rw [swapKV_lookup_m s i a n mn hm him, hm]
      rfl
    · rw [swapKV_lookup_other s i m n mn a hai ham]

/-- Transfer a cell with its links through a link-agreement. -/
theorem link_transfer (s t : PyState)
    (h : ∀ a, (lookupN t.heap a).map (fun x => (x.left, x.right, x.parent))
      = (lookupN s.heap a).map (fun x => (x.left, x.right, x.parent)))
    (a : Nat) (na : PyNode) (ha : lookupN s.heap a = some na) :
    ∃ nt, lookupN t.heap a = some nt ∧
      nt.left = na.left ∧ nt.right = na.right ∧ nt.parent = na.parent := by
  have := h a
  rw [ha] at this
  cases hl : lookupN t.heap a with
  | none => rw [hl] at this; exact absurd this (by simp)
  | some nt =>
    rw [hl] at this
    simp only [Option.map_some'] at this
    have h0 := Option.some.inj this
    exact ⟨nt, rfl, congrArg Prod.fst h0,
      congrArg (fun q => q.2.1) h0, congrArg (fun q => q.2.2) h0⟩

/-- Reverse transfer. -/
theorem link_transfer_back (s t : PyState)
    (h : ∀ a, (lookupN t.heap a).map (fun x => (x.left, x.right, x.parent))
      = (lookupN s.heap a).map (fun x => (x.left, x.right, x.parent)))
    (a : Nat) (nt : PyNode) (ha : lookupN t.heap a = some nt) :
    ∃ na, lookupN s.heap a = some na ∧
      nt.left = na.left ∧ nt.right = na.right ∧ nt.parent = na.parent := by
  have := h a
  rw [ha] at this
  cases hl : lookupN s.heap a with
  | none => rw [hl] at this; exact absurd this (by simp)
  | some na =>
    rw [hl] at this
    simp only [Option.map_some'] at this
    have h0 := Option.some.inj this
    exact ⟨na, rfl, congrArg Prod.fst h0,
      congrArg (fun q => q.2.1) h0, congrArg (fun q => q.2.2) h0⟩

theorem right_agree_of_link_agree (s t : PyState)
    (h : ∀ a, (lookupN t.heap a).map (fun x => (x.left, x.right, x.parent))
      = (lookupN s.heap a).map (fun x => (x.left, x.right, x.parent))) :
    ∀ a, (lookupN t.heap a).map PyNode.right = (lookupN s.heap a).map PyNode.right := by
  intro a
  have := h a
  cases hl : lookupN s.heap a with
  | none =>
    rw [hl] at this
    cases hl2 : lookupN t.heap a with
    | none => simp
    | some nt => rw [hl2] at this; exact absurd this (by simp)
  | some na =>
    rw [hl] at this
    cases hl2 : lookupN t.heap a with
    | none => rw [hl2] at this; exact absurd this (by simp)
    | some nt =>
      rw [hl2] at this
      simp only [Option.map_some'] at this ⊢
      have h0 := Option.some.inj this
      rw [show nt.right = na.right from congrArg (fun q => q.2.1) h0]

theorem left_agree_of_link_agree (s t : PyState)
    (h : ∀ a, (lookupN t.heap a).map (fun x => (x.left, x.right, x.parent))
      = (lookupN s.heap a).map (fun x => (x.left, x.right, x.parent))) :
    ∀ a, (lookupN t.heap a).map PyNode.left = (lookupN s.heap a).map PyNode.left := by
  intro a
  have := h a
  cases hl : lookupN s.heap a with
  | none =>
    rw [hl] at this
    cases hl2 : lookupN t.heap a with
    | none => simp
    | some nt => rw [hl2] at this; exact absurd this (by simp)
  | some na =>
    rw [hl] at this
    cases hl2 : lookupN t.heap a with
    | none => rw [hl2] at this; exact absurd this (by simp)
    | some nt =>
      rw [hl2] at this
      simp only [Option.map_some'] at this ⊢
      have h0 := Option.some.inj this
      rw [show nt.left = na.left from congrArg Prod.fst h0]

/-- The max-of-left-subtree successor has a live parent whose matching
child slot references it. -/
theorem max_parent_facts (s : PyState) (W : WFs s) (fuel : Nat) (i li m : Nat)
    (n : PyNode) (hi : lookupN s.heap i = some n) (hli : n.left = some li)
    (hgm : BSTree.get_max fuel s (some li) = .ok m) :
    ∃ P pn mn, lookupN s.heap P = some pn ∧ lookupN s.heap m = some mn ∧
      (pn.left = some m ∨ pn.right = some m) ∧ mn.parent = some P ∧ m ≠ P := by
  rcases get_max_link fuel s li m hgm with he | ⟨P, pn, hp, hsd⟩
  · subst he
    have hmem := mem_of_lookupN s.heap i n hi
    obtain ⟨nb, hnb, hparb, hneb⟩ := W.childBack (i, n) hmem m (Or.inl hli)
    exact ⟨i, n, nb, hi, hnb, Or.inl hli, hparb, hneb⟩
  · have hmem := mem_of_lookupN s.heap P pn hp
    obtain ⟨nb, hnb, hparb, hneb⟩ := W.childBack (P, pn) hmem m (Or.inr hsd)
    exact ⟨P, pn, nb, hp, hnb, Or.inr hsd, hparb, hneb⟩

/-- Mirror for the min-of-right-subtree successor. -/
theorem min_parent_facts (s : PyState) (W : WFs s) (fuel : Nat) (i ri m : Nat)
    (n : PyNode) (hi : lookupN s.heap i = some n) (hri : n.right = some ri)
    (hgm : BSTree.get_min fuel s (some ri) = .ok m) :
    ∃ P pn mn, lookupN s.heap P = some pn ∧ lookupN s.heap m = some mn ∧
      (pn.left = some m ∨ pn.right = some m) ∧ mn.parent = some P ∧ m ≠ P := by
  rcases get_min_link fuel s ri m hgm with he | ⟨P, pn, hp, hsd⟩
  · subst he
    have hmem := mem_of_lookupN s.heap i n hi
    obtain ⟨nb, hnb, hparb, hneb⟩ := W.childBack (i, n) hmem m (Or.inr hri)
    exact ⟨i, n, nb, hi, hnb, Or.inr hri, hparb, hneb⟩
  · have hmem := mem_of_lookupN s.heap P pn hp
    obtain ⟨nb, hnb, hparb, hneb⟩ := W.childBack (P, pn) hmem m (Or.inl hsd)
    exact ⟨P, pn, nb, hp, hnb, Or.inl hsd, hparb, hneb⟩

/-- The left child of a max-of-left-subtree successor can never be the
successor's own parent (a two-cycle would contradict the way the
successor was reached). -/
theorem succ_child_ne_parent_max (s : PyState) (W : WFs s)
    (gfuel fuel : Nat) (k : Int) (rt i li m P c : Nat)
    (n mn pn nc nrt : PyNode)
    (hroot : s.Root = some rt)
    (hi : lookupN s.heap i = some n) (hrt : lookupN s.heap rt = some nrt)
    (hm : lookupN s.heap m = some mn) (hp : lookupN s.heap P = some pn)
    (hc : lookupN s.heap c = some nc)
    (hfind : BSTree.get_node gfuel s k s.Root = .ok (some i))
    (hgm : BSTree.get_max fuel s (some li) = .ok m)
    (hli : n.left = some li) (him : i ≠ m)
    (hmr : mn.right = none) (hml : mn.left = some c)
    (hncp : nc.parent = some m) (hcm : c ≠ m)
    (hside : pn.left = some m ∨ pn.right = some m)
    (hmp : mn.parent = some P) (hmP : m ≠ P)
    (hmrt : m ≠ rt) :
    c ≠ P := by
  intro hcP
  have hpn_nc : pn = nc := by
    rw [hcP] at hc
    exact Option.some.inj (hp.symm.trans hc)
  have hppar : pn.parent = some m := hpn_nc ▸ hncp
  have hmlP : mn.left = some P := hcP ▸ hml
  have honly : ∀ a na, lookupN s.heap a = some na →
      (na.left = some m ∨ na.right = some m) → a = P := by
    intro a na hla hlk
    exact W.uref (a, na) (mem_of_lookupN _ _ _ hla)
      (P, pn) (mem_of_lookupN _ _ _ hp) m hlk hside
  have hlinkP : ∀ a na, lookupN s.heap a = some na →
      (na.left = some P ∨ na.right = some P) → a = m := by
    intro a na hla hlk
    exact W.uref (a, na) (mem_of_lookupN _ _ _ hla)
      (m, mn) (mem_of_lookupN _ _ _ hm) P hlk (Or.inl hmlP)
  by_cases hlim : li = m
  · -- the successor is the direct left child of the deleted node
    obtain ⟨nb, hnb, hparb, _⟩ :=
      W.childBack (i, n) (mem_of_lookupN _ _ _ hi) li (Or.inl hli)
    have hnb_mn : nb = mn := by
      rw [hlim] at hnb
      exact Option.some.inj (hnb.symm.trans hm)
    have hparb2 : mn.parent = some i := hnb_mn ▸ hparb
    have hPi : P = i := Option.some.inj (hmp.symm.trans hparb2)
    have hlinki : ∀ a na, lookupN s.heap a = some na →
        (na.left = some i ∨ na.right = some i) → a = m := by
      intro a na hla hlk
      exact hlinkP a na hla (hPi ▸ hlk)
    have honlyi : ∀ a na, lookupN s.heap a = some na →
        (na.left = some m ∨ na.right = some m) → a = i := by
      intro a na hla hlk
      exact hPi ▸ honly a na hla hlk
    have hrti : rt ≠ i := by
      intro he
      have hnrt_n : nrt = n := by
        rw [he] at hrt
        exact Option.some.inj (hrt.symm.trans hi)
      have hipar : n.parent = some m := by
        obtain ⟨nb2, hnb2, hparb3, _⟩ :=
          W.childBack (m, mn) (mem_of_lookupN _ _ _ hm) i
            (Or.inl (hPi ▸ hmlP))
        have hbn : nb2 = n := Option.some.inj (hnb2.symm.trans hi)
        exact hbn ▸ hparb3
      have hrp := W.rootp rt nrt hroot hrt
      rw [hnrt_n, hipar] at hrp
      simp at hrp
    have havoid := get_node_avoid_pair s k i m hlinki honlyi gfuel rt hrti (Ne.symm hmrt)
    rw [hroot] at hfind
    exact havoid hfind
  · -- the successor sits deeper in the right chain below li
    have hliP : li ≠ P := by
      intro he
      obtain ⟨nb, hnb, hparb, _⟩ :=
        W.childBack (i, n) (mem_of_lookupN _ _ _ hi) li (Or.inl hli)
      rw [he] at hnb
      have hbp : nb = pn := Option.some.inj (hnb.symm.trans hp)
      have h1 : pn.parent = some i := hbp ▸ hparb
      rw [hppar] at h1
      exact him (Option.some.inj h1).symm
    exact get_max_avoid_pair s m P honly hlinkP fuel li hlim hliP hgm

/-- Mirror: the right child of a min-of-right-subtree successor can
never be the successor's own parent. -/
theorem succ_child_ne_parent_min (s : PyState) (W : WFs s)
    (gfuel fuel : Nat) (k : Int) (rt i ri m P c : Nat)
    (n mn pn nc nrt : PyNode)
    (hroot : s.Root = some rt)
    (hi : lookupN s.heap i = some n) (hrt : lookupN s.heap rt = some nrt)
    (hm : lookupN s.heap m = some mn) (hp : lookupN s.heap P = some pn)
    (hc : lookupN s.heap c = some nc)
    (hfind : BSTree.get_node gfuel s k s.Root = .ok (some i))
    (hgm : BSTree.get_min fuel s (some ri) = .ok m)
    (hri : n.right = some ri) (him : i ≠ m)
    (hml : mn.left = none) (hmr : mn.right = some c)
    (hncp : nc.parent = some m) (hcm : c ≠ m)
    (hside : pn.left = some m ∨ pn.right = some m)
    (hmp : mn.parent = some P) (hmP : m ≠ P)
    (hmrt : m ≠ rt) :
    c ≠ P := by
  intro hcP
  have hpn_nc : pn = nc := by
    rw [hcP] at hc
    exact Option.some.inj (hp.symm.trans hc)
  have hppar : pn.parent = some m := hpn_nc ▸ hncp
  have hmrP : mn.right = some P := hcP ▸ hmr
  have honly : ∀ a na, lookupN s.heap a = some na →
      (na.left = some m ∨ na.right = some m) → a = P := by
    intro a na hla hlk
    exact W.uref (a, na) (mem_of_lookupN _ _ _ hla)
      (P, pn) (mem_of_lookupN _ _ _ hp) m hlk hside
  have hlinkP : ∀ a na, lookupN s.heap a = some na →
      (na.left = some P ∨ na.right = some P) → a = m := by
    intro a na hla hlk
    exact W.uref (a, na) (mem_of_lookupN _ _ _ hla)
      (m, mn) (mem_of_lookupN _ _ _ hm) P hlk (Or.inr hmrP)
  by_cases hrim : ri = m
  · obtain ⟨nb, hnb, hparb, _⟩ :=
      W.childBack (i, n) (mem_of_lookupN _ _ _ hi) ri (Or.inr hri)
    have hnb_mn : nb = mn := by
      rw [hrim] at hnb
      exact Option.some.inj (hnb.symm.trans hm)
    have hparb2 : mn.parent = some i := hnb_mn ▸ hparb
    have hPi : P = i := Option.some.inj (hmp.symm.trans hparb2)
    have hlinki : ∀ a na, lookupN s.heap a = some na →
        (na.left = some i ∨ na.right = some i) → a = m := by
      intro a na hla hlk
      exact hlinkP a na hla (hPi ▸ hlk)
    have honlyi : ∀ a na, lookupN s.heap a = some na →
        (na.left = some m ∨ na.right = some m) → a = i := by
      intro a na hla hlk
      exact hPi ▸ honly a na hla hlk
    have hrti : rt ≠ i := by
      intro he
      have hnrt_n : nrt = n := by
        rw [he] at hrt
        exact Option.some.inj (hrt.symm.trans hi)
      have hipar : n.parent = some m := by
        obtain ⟨nb2, hnb2, hparb3, _⟩ :=
          W.childBack (m, mn) (mem_of_lookupN _ _ _ hm) i
            (Or.inr (hPi ▸ hmrP))
        have hbn : nb2 = n := Option.some.inj (hnb2.symm.trans hi)
        exact hbn ▸ hparb3
      have hrp := W.rootp rt nrt hroot hrt
      rw [hnrt_n, hipar] at hrp
      simp at hrp
    have havoid := get_node_avoid_pair s k i m hlinki honlyi gfuel rt hrti (Ne.symm hmrt)
    rw [hroot] at hfind
    exact havoid hfind
  · have hriP : ri ≠ P := by
      intro he
      obtain ⟨nb, hnb, hparb, _⟩ :=
        W.childBack (i, n) (mem_of_lookupN _ _ _ hi) ri (Or.inr hri)
      rw [he] at hnb
      have hbp : nb = pn := Option.some.inj (hnb.symm.trans hp)
      have h1 : pn.parent = some i := hbp ▸ hparb
      rw [hppar] at h1
      exact him (Option.some.inj h1).symm
    exact get_min_avoid_pair s m P honly hlinkP fuel ri hrim hriP hgm

theorem WFs_of_chk (s : PyState) (h : WFsChk s = true) : WFs s := by
  unfold WFsChk at h
  simp only [Bool.and_eq_true] at h
  obtain ⟨⟨⟨⟨⟨⟨h1, h2⟩, h3⟩, h4⟩, h5⟩, h6⟩, h7⟩ := h
  refine ⟨of_decide_eq_true h1, ?_, ?_, ?_, ?_, ?_, ?_⟩
  · intro p hp q hq hk
    have h := List.all_eq_true.mp (List.all_eq_true.mp h2 p hp) q hq
    simp only [Bool.or_eq_true, bne_iff_ne, ne_eq, beq_iff_eq] at h
    rcases h with h | h
    · exact absurd hk h
    · exact h
  · intro p hp b hlk
    have hc : some b ∈ linkPairs p.2 := by
      simp only [linkPairs, List.mem_cons, List.mem_singleton]
      rcases hlk with h | h
      · exact Or.inl h.symm
      · exact Or.inr (Or.inl h.symm)
    have h0 := List.all_eq_true.mp (List.all_eq_true.mp h3 p hp) (some b) hc
    have h : (match lookupN s.heap b with
        | none => false
        | some nb => nb.parent == some p.1 && b != p.1) = true := h0
    cases hlb : lookupN s.heap b with
    | none =>
      rw [hlb] at h
      exact Bool.noConfusion h
    | some nb =>
      rw [hlb] at h
      simp only [Bool.and_eq_true, beq_iff_eq, bne_iff_ne, ne_eq] at h
      exact ⟨nb, rfl, h.1, h.2⟩
  · intro p hp q hq b hl1 hl2
    have hc : some b ∈ linkPairs p.2 := by
      simp only [linkPairs, List.mem_cons, List.mem_singleton]
      rcases hl1 with h | h
      · exact Or.inl h.symm
      · exact Or.inr (Or.inl h.symm)
    have hd : some b ∈ linkPairs q.2 := by
      simp only [linkPairs, List.mem_cons, List.mem_singleton]
      rcases hl2 with h | h
      · exact Or.inl h.symm
      · exact Or.inr (Or.inl h.symm)
    have h := List.all_eq_true.mp (List.all_eq_true.mp
      (List.all_eq_true.mp (List.all_eq_true.mp h4 p hp) q hq) (some b) hc)
      (some b) hd
    simpa using h
  · intro p hp he
    have h := List.all_eq_true.mp h5 p hp
    simp only [Bool.or_eq_true, bne_iff_ne, ne_eq, beq_iff_eq] at h
    rcases h with h | h
    · exact absurd he h
    · exact h
  · intro rt nrt hR hl
    rw [hR] at h6
    have h : (match lookupN s.heap rt with
        | none => true
        | some nrt => nrt.parent == none) = true := h6
    rw [hl] at h
    exact beq_iff_eq.mp h
  · intro p hp a hpa
    have h0 := List.all_eq_true.mp h7 p hp
    rw [hpa] at h0
    have h : (match lookupN s.heap a with
        | none => false
        | some na => na.left == some p.1 || na.right == some p.1) = true := h0
    cases hla : lookupN s.heap a with
    | none =>
      rw [hla] at h
      exact Bool.noConfusion h
    | some na =>
      rw [hla] at h
      simp only [Bool.or_eq_true, beq_iff_eq] at h
      exact ⟨na, rfl, h⟩

/-- C5 (amended): for every well-formed state and key whose node has two
children, `BSTree.delete` replaces that node's key and value with those
of the maximum node of its left subtree when the left subtree's height
is strictly greater than the right subtree's height, and with those of
the minimum node of the right subtree otherwise (ties go to the right
subtree's minimum, not the left), and the chosen successor node is
physically removed: afterwards neither the root reference nor any link
field mentions it. -/
theorem C5_delete_two_child (fuel : Nat) (s : PyState) (W : WFs s)
    (k : Int) (i li ri : Nat) (n : PyNode) (s2 : PyState) (hl hr : Int)
    (hfind : BSTree.get_node fuel s k s.Root = .ok (some i))
    (hi : lookupN s.heap i = some n)
    (hli : n.left = some li) (hri : n.right = some ri)
    (hhl : BSTree.get_height fuel s (some li) = .ok hl)
    (hhr : BSTree.get_height fuel s (some ri) = .ok hr)
    (hdel : BSTree.delete fuel s k = .ok s2) :
    (hl > hr → ∀ m mn, BSTree.get_max fuel s (some li) = .ok m →
        lookupN s.heap m = some mn →
        (lookupN s2.heap i).map (fun x => (x.key, x.value))
          = some (mn.key, mn.value) ∧ unrefAll s2 m) ∧
    (¬ hl > hr → ∀ m mn, BSTree.get_min fuel s (some ri) = .ok m →
        lookupN s.heap m = some mn →
        (lookupN s2.heap i).map (fun x => (x.key, x.value))
          = some (mn.key, mn.value) ∧ unrefAll s2 m) := by
  obtain ⟨rt, hroot⟩ := get_node_root_some fuel s k i hfind
  have hfind2 := hfind
  rw [hroot] at hfind2
  have hrtl : ∃ nrt, lookupN s.heap rt = some nrt := by
    cases fuel with
    | zero => simp [BSTree.get_node] at hfind2
    | succ f =>
      simp only [BSTree.get_node] at hfind2
      cases hx : lookupN s.heap rt with
      | none => simp [readN, hx, Except.bind, bind] at hfind2
      | some nrt => exact ⟨nrt, rfl⟩
  obtain ⟨nrt, hrtl⟩ := hrtl
  have hdn : BSTree.delete_node fuel s i = .ok s2 := by
    have h1 : ¬ (n.left = none ∧ n.right = none) := by simp [hli]
    have h2 : ¬ (n.left = none ∨ n.right = none) := by simp [hli, hri]
    simpa only [BSTree.delete, hfind, readN, hi, Except.bind, bind,
      if_neg h1, if_neg h2] using hdel
  constructor
  · -- replacement by the max of the left subtree
    intro hgt m mn hgm hm
    have hmrnone : mn.right = none := by
      obtain ⟨mm, hmm, hmr2⟩ := get_max_cell fuel s li m hgm
      rw [hm] at hmm
      exact (Option.some.inj hmm) ▸ hmr2
    obtain ⟨P, pn, mn2, hp, hm2, hside, hmp2, hmP2⟩ :=
      max_parent_facts s W fuel i li m n hi hli hgm
    have hmne : mn2 = mn := Option.some.inj (hm2.symm.trans hm)
    rw [hmne] at hmp2
    clear hm2 hmne mn2
    have him : i ≠ m := by
      intro he
      rw [he] at hi
      have hne : n = mn := Option.some.inj (hi.symm.trans hm)
      rw [hne, hmrnone] at hri
      simp at hri
    have hmrt : m ≠ rt := by
      intro he
      have hne : mn = nrt := by
        rw [he] at hm
        exact Option.some.inj (hm.symm.trans hrtl)
      have h0 := W.rootp rt nrt hroot hrtl
      rw [← hne, hmp2] at h0
      simp at h0
    have hkey_iff : n.key = nrt.key ↔ i = rt := by
      constructor
      · intro he
        exact W.keys (i, n) (mem_of_lookupN _ _ _ hi)
          (rt, nrt) (mem_of_lookupN _ _ _ hrtl) he
      · intro he
        rw [he] at hi
        rw [Option.some.inj (hi.symm.trans hrtl)]
    have hmkey : mn.key ≠ nrt.key := by
      intro he
      exact hmrt (W.keys (m, mn) (mem_of_lookupN _ _ _ hm)
        (rt, nrt) (mem_of_lookupN _ _ _ hrtl) he)
    have hswitch := switch_nodes_spec s i m rt n mn nrt hroot hi hm hrtl
      him hmrt hkey_iff hmkey
    have htm := swapKV_lookup_m s i m n mn hm him
    have hti := swapKV_lookup_i s i m n mn hi him
    have hlink := swapKV_link_agree s i m n mn hi hm him
    have hragree := right_agree_of_link_agree s (swapKV s i m n mn) hlink
    have hgm_t : BSTree.get_max fuel (swapKV s i m n mn) (some li) = .ok m := by
      rw [get_max_congr fuel s _ hragree (some li)]
      exact hgm
    -- facts about t transferred from s
    obtain ⟨pnt, hpt, hptl, hptr, hptp⟩ := link_transfer s _ hlink P pn hp
    have hside_t : pnt.left = some m ∨ pnt.right = some m := by
      rcases hside with h | h
      · exact Or.inl (hptl ▸ h)
      · exact Or.inr (hptr ▸ h)
    have hnotboth : ¬ (pn.left = some m ∧ pn.right = some m) := by
      rintro ⟨h1, h2⟩
      have := W.twosep (P, pn) (mem_of_lookupN _ _ _ hp) (h1.trans h2.symm)
      rw [h1] at this
      simp at this
    have hnotboth_t : ¬ (pnt.left = some m ∧ pnt.right = some m) := by
      rintro ⟨h1, h2⟩
      exact hnotboth ⟨hptl ▸ h1, hptr ▸ h2⟩
    have honly_t : ∀ a na, lookupN (swapKV s i m n mn).heap a = some na →
        (na.left = some m ∨ na.right = some m) → a = P := by
      intro a na hla hlk
      obtain ⟨na0, hla0, hel, her, _⟩ := link_transfer_back s _ hlink a na hla
      refine W.uref (a, na0) (mem_of_lookupN _ _ _ hla0)
        (P, pn) (mem_of_lookupN _ _ _ hp) m ?_ hside
      rcases hlk with h | h
      · exact Or.inl (hel ▸ h)
      · exact Or.inr (her ▸ h)
    have hRm_t : (swapKV s i m n mn).Root ≠ some m := by
      rw [swapKV_Root, hroot]
      exact fun he => hmrt (Option.some.inj he).symm
    have hPm : P ≠ m := Ne.symm hmP2
    have hkv_i : ∀ s2x, kvAgree (swapKV s i m n mn) s2x →
        (lookupN s2x.heap i).map (fun x => (x.key, x.value))
          = some (mn.key, mn.value) := by
      intro s2x hkv
      rw [hkv i, hti]
      rfl
    cases hmL : mn.left with
    | none =>
      -- the successor is childless: _delete_leaf
      have hdlp : BSTree.delete_leaf (swapKV s i m n mn) m = .ok s2 := by
        have hcond : (({ mn with key := n.key, value := n.value } : PyNode).right = none
            ∧ ({ mn with key := n.key, value := n.value } : PyNode).left = none) := by
          constructor
          · exact hmrnone
          · exact hmL
        simpa only [BSTree.delete_node, readN, hi, hli, hri, hhl, hhr,
          Except.bind, bind, if_pos hgt, hgm, hswitch, htm, hti, hgm_t,
          if_pos hcond] using hdn
      have hpnone_t : ∀ a na, lookupN (swapKV s i m n mn).heap a = some na →
          na.parent ≠ some m := by
        intro a na hla he
        obtain ⟨na0, hla0, _, _, hep⟩ := link_transfer_back s _ hlink a na hla
        rw [hep] at he
        obtain ⟨nm2, hnm2, hlk2⟩ :=
          W.parentChild (a, na0) (mem_of_lookupN _ _ _ hla0) m he
        have : nm2 = mn := Option.some.inj (hnm2.symm.trans hm)
        rw [this] at hlk2
        rcases hlk2 with h | h
        · rw [hmL] at h; simp at h
        · rw [hmrnone] at h; simp at h
      obtain ⟨s2x, hrun, hRx, hFx, hkvx, hlmx, hunref⟩ :=
        delete_leaf_clean_spec (swapKV s i m n mn) m P
          { mn with key := n.key, value := n.value } pnt htm hpt hmp2
          hmL hmrnone hPm hside_t hnotboth_t
      have hs2x : s2x = s2 := Except.ok.inj (hrun.symm.trans hdlp)
      subst hs2x
      constructor
      · exact hkv_i s2x hkvx
      · exact hunref honly_t hpnone_t hRm_t
    | some c =>
      -- the successor has a left child c: _delete_leaf_parent
      obtain ⟨nc, hcl, hncp, hcm2⟩ :=
        W.childBack (m, mn) (mem_of_lookupN _ _ _ hm) c (Or.inl hmL)
      have hcm : c ≠ m := hcm2
      have hcP : c ≠ P := succ_child_ne_parent_max s W fuel fuel k rt i li m P c
        n mn pn nc nrt hroot hi hrtl hm hp hcl hfind hgm hli him
        hmrnone hmL hncp hcm hside hmp2 hmP2 hmrt
      have hdlp : BSTree.delete_leaf_parent (swapKV s i m n mn) m = .ok s2 := by
        have hcond : ¬ (({ mn with key := n.key, value := n.value } : PyNode).right = none
            ∧ ({ mn with key := n.key, value := n.value } : PyNode).left = none) := by
          rintro ⟨_, h2⟩
          rw [show ({ mn with key := n.key, value := n.value } : PyNode).left
            = mn.left from rfl, hmL] at h2
          exact Option.noConfusion h2
        simpa only [BSTree.delete_node, readN, hi, hli, hri, hhl, hhr,
          Except.bind, bind, if_pos hgt, hgm, hswitch, htm, hti, hgm_t,
          if_neg hcond] using hdn
      -- transferred cells in the post-switch state
      obtain ⟨nct, hct, hctl, hctr, hctp⟩ := link_transfer s _ hlink c nc hcl
      have hctp2 : nct.parent = some m := hctp ▸ hncp
      -- the root cell of the post-switch state and the key disequality
      have hkk : n.key ≠ mn.key := by
        intro he
        exact him (W.keys (i, n) (mem_of_lookupN _ _ _ hi)
          (m, mn) (mem_of_lookupN _ _ _ hm) he)
      have hrtcell : ∃ nrtt, lookupN (swapKV s i m n mn).heap rt = some nrtt ∧
          ({ mn with key := n.key, value := n.value } : PyNode).key ≠ nrtt.key := by
        by_cases hirt : i = rt
        · refine ⟨{ n with key := mn.key, value := mn.value }, ?_, ?_⟩
          · rw [← hirt]; exact hti
          · exact hkk
        · refine ⟨nrt, ?_, ?_⟩
          · rw [swapKV_lookup_other s i m n mn rt (fun he => hirt he.symm)
              (fun he => hmrt he.symm)]
            exact hrtl
          · intro he
            exact hirt (hkey_iff.mp he)
      obtain ⟨nrtt, hrtt, hkeyt⟩ := hrtcell
      have hponly_t : ∀ a na, lookupN (swapKV s i m n mn).heap a = some na →
          na.parent = some m → a = c := by
        intro a na hla he
        obtain ⟨na0, hla0, _, _, hep⟩ := link_transfer_back s _ hlink a na hla
        rw [hep] at he
        obtain ⟨nm2, hnm2, hlk2⟩ :=
          W.parentChild (a, na0) (mem_of_lookupN _ _ _ hla0) m he
        have hnm2e : nm2 = mn := Option.some.inj (hnm2.symm.trans hm)
        rw [hnm2e] at hlk2
        rcases hlk2 with h | h
        · rw [hmL] at h; exact (Option.some.inj h).symm
        · rw [hmrnone] at h; simp at h
      obtain ⟨s2x, hrun, hRx, hFx, hkvx, hlmx, hunref⟩ :=
        delete_leaf_parent_spec_max (swapKV s i m n mn) m P c rt
          { mn with key := n.key, value := n.value } pnt nct nrtt
          (by rw [swapKV_Root]; exact hroot) htm hpt hct hrtt hmp2 hkeyt
          hmrnone hmL hcm hPm hcP hside_t hnotboth_t
      have hs2x : s2x = s2 := Except.ok.inj (hrun.symm.trans hdlp)
      subst hs2x
      constructor
      · exact hkv_i s2x hkvx
      · exact hunref honly_t hponly_t hRm_t
  · -- replacement by the min of the right subtree
    intro hgt m mn hgm hm
    have hmlnone : mn.left = none := by
      obtain ⟨mm, hmm, hml2⟩ := get_min_cell fuel s ri m hgm
      rw [hm] at hmm
      exact (Option.some.inj hmm) ▸ hml2
    obtain ⟨P, pn, mn2, hp, hm2, hside, hmp2, hmP2⟩ :=
      min_parent_facts s W fuel i ri m n hi hri hgm
    have hmne : mn2 = mn := Option.some.inj (hm2.symm.trans hm)
    rw [hmne] at hmp2
    clear hm2 hmne mn2
    have him : i ≠ m := by
      intro he
      rw [he] at hi
      have hne : n = mn := Option.some.inj (hi.symm.trans hm)
      rw [hne, hmlnone] at hli
      simp at hli
    have hmrt : m ≠ rt := by
      intro he
      have hne : mn = nrt := by
        rw [he] at hm
        exact Option.some.inj (hm.symm.trans hrtl)
      have h0 := W.rootp rt nrt hroot hrtl
      rw [← hne, hmp2] at h0
      simp at h0
    have hkey_iff : n.key = nrt.key ↔ i = rt := by
      constructor
      · intro he
        exact W.keys (i, n) (mem_of_lookupN _ _ _ hi)
          (rt, nrt) (mem_of_lookupN _ _ _ hrtl) he
      · intro he
        rw [he] at hi
        rw [Option.some.inj (hi.symm.trans hrtl)]
    have hmkey : mn.key ≠ nrt.key := by
      intro he
      exact hmrt (W.keys (m, mn) (mem_of_lookupN _ _ _ hm)
        (rt, nrt) (mem_of_lookupN _ _ _ hrtl) he)
    have hswitch := switch_nodes_spec s i m rt n mn nrt hroot hi hm hrtl
      him hmrt hkey_iff hmkey
    have htm := swapKV_lookup_m s i m n mn hm him
    have hti := swapKV_lookup_i s i m n mn hi him
    have hlink := swapKV_link_agree s i m n mn hi hm him
    have hlagree := left_agree_of_link_agree s (swapKV s i m n mn) hlink
    have hgm_t : BSTree.get_min fuel (swapKV s i m n mn) (some ri) = .ok m := by
      rw [get_min_congr fuel s _ hlagree (some ri)]
      exact hgm
    obtain ⟨pnt, hpt, hptl, hptr, hptp⟩ := link_transfer s _ hlink P pn hp
    have hside_t : pnt.left = some m ∨ pnt.right = some m := by
      rcases hside with h | h
      · exact Or.inl (hptl ▸ h)
      · exact Or.inr (hptr ▸ h)
    have hnotboth : ¬ (pn.left = some m ∧ pn.right = some m) := by
      rintro ⟨h1, h2⟩
      have := W.twosep (P, pn) (mem_of_lookupN _ _ _ hp) (h1.trans h2.symm)
      rw [h1] at this
      simp at this
    have hnotboth_t : ¬ (pnt.left = some m ∧ pnt.right = some m) := by
      rintro ⟨h1, h2⟩
      exact hnotboth ⟨hptl ▸ h1, hptr ▸ h2⟩
    have honly_t : ∀ a na, lookupN (swapKV s i m n mn).heap a = some na →
        (na.left = some m ∨ na.right = some m) → a = P := by
      intro a na hla hlk
      obtain ⟨na0, hla0, hel, her, _⟩ := link_transfer_back s _ hlink a na hla
      refine W.uref (a, na0) (mem_of_lookupN _ _ _ hla0)
        (P, pn) (mem_of_lookupN _ _ _ hp) m ?_ hside
      rcases hlk with h | h
      · exact Or.inl (hel ▸ h)
      · exact Or.inr (her ▸ h)
    have hRm_t : (swapKV s i m n mn).Root ≠ some m := by
      rw [swapKV_Root, hroot]
      exact fun he => hmrt (Option.some.inj he).symm
    have hPm : P ≠ m := Ne.symm hmP2
    have hkv_i : ∀ s2x, kvAgree (swapKV s i m n mn) s2x →
        (lookupN s2x.heap i).map (fun x => (x.key, x.value))
          = some (mn.key, mn.value) := by
      intro s2x hkv
      rw [hkv i, hti]
      rfl
    cases hmR : mn.right with
    | none =>
      have hdlp : BSTree.delete_leaf (swapKV s i m n mn) m = .ok s2 := by
        have hcond : (({ mn with key := n.key, value := n.value } : PyNode).right = none
            ∧ ({ mn with key := n.key, value := n.value } : PyNode).left = none) := by
          constructor
          · exact hmR
          · exact hmlnone
        simpa only [BSTree.delete_node, readN, hi, hli, hri, hhl, hhr,
          Except.bind, bind, if_neg (show ¬ hl > hr from hgt), hgm, hswitch,
          htm, hti, hgm_t, if_pos hcond] using hdn
      have hpnone_t : ∀ a na, lookupN (swapKV s i m n mn).heap a = some na →
          na.parent ≠ some m := by
        intro a na hla he
        obtain ⟨na0, hla0, _, _, hep⟩ := link_transfer_back s _ hlink a na hla
        rw [hep] at he
        obtain ⟨nm2, hnm2, hlk2⟩ :=
          W.parentChild (a, na0) (mem_of_lookupN _ _ _ hla0) m he
        have : nm2 = mn := Option.some.inj (hnm2.symm.trans hm)
        rw [this] at hlk2
        rcases hlk2 with h | h
        · rw [hmlnone] at h; simp at h
        · rw [hmR] at h; simp at h
      obtain ⟨s2x, hrun, hRx, hFx, hkvx, hlmx, hunref⟩ :=
        delete_leaf_clean_spec (swapKV s i m n mn) m P
          { mn with key := n.key, value := n.value } pnt htm hpt hmp2
          hmlnone hmR hPm hside_t hnotboth_t
      have hs2x : s2x = s2 := Except.ok.inj (hrun.symm.trans hdlp)
      subst hs2x
      constructor
      · exact hkv_i s2x hkvx
      · exact hunref honly_t hpnone_t hRm_t
    | some c =>
      obtain ⟨nc, hcl, hncp, hcm2⟩ :=
        W.childBack (m, mn) (mem_of_lookupN _ _ _ hm) c (Or.inr hmR)
      have hcm : c ≠ m := hcm2
      have hcP : c ≠ P := succ_child_ne_parent_min s W fuel fuel k rt i ri m P c
        n mn pn nc nrt hroot hi hrtl hm hp hcl hfind hgm hri him
        hmlnone hmR hncp hcm hside hmp2 hmP2 hmrt
      have hdlp : BSTree.delete_leaf_parent (swapKV s i m n mn) m = .ok s2 := by
        have hcond : ¬ (({ mn with key := n.key, value := n.value } : PyNode).right = none
            ∧ ({ mn with key := n.key, value := n.value } : PyNode).left = none) := by
          rintro ⟨h2, _⟩
          rw [show ({ mn with key := n.key, value := n.value } : PyNode).right
            = mn.right from rfl, hmR] at h2
          exact Option.noConfusion h2
        simpa only [BSTree.delete_node, readN, hi, hli, hri, hhl, hhr,
          Except.bind, bind, if_neg (show ¬ hl > hr from hgt), hgm, hswitch,
          htm, hti, hgm_t, if_neg hcond] using hdn
      obtain ⟨nct, hct, hctl, hctr, hctp⟩ := link_transfer s _ hlink c nc hcl
      have hctp2 : nct.parent = some m := hctp ▸ hncp
      have hkk : n.key ≠ mn.key := by
        intro he
        exact him (W.keys (i, n) (mem_of_lookupN _ _ _ hi)
          (m, mn) (mem_of_lookupN _ _ _ hm) he)
      have hrtcell : ∃ nrtt, lookupN (swapKV s i m n mn).heap rt = some nrtt ∧
          ({ mn with key := n.key, value := n.value } : PyNode).key ≠ nrtt.key := by
        by_cases hirt : i = rt
        · refine ⟨{ n with key := mn.key, value := mn.value }, ?_, ?_⟩
          · rw [← hirt]; exact hti
          · exact hkk
        · refine ⟨nrt, ?_, ?_⟩
          · rw [swapKV_lookup_other s i m n mn rt (fun he => hirt he.symm)
              (fun he => hmrt he.symm)]
            exact hrtl
          · intro he
            exact hirt (hkey_iff.mp he)
      obtain ⟨nrtt, hrtt, hkeyt⟩ := hrtcell
      have hponly_t : ∀ a na, lookupN (swapKV s i m n mn).heap a = some na →
          na.parent = some m → a = c := by
        intro a na hla he
        obtain ⟨na0, hla0, _, _, hep⟩ := link_transfer_back s _ hlink a na hla
        rw [hep] at he
        obtain ⟨nm2, hnm2, hlk2⟩ :=
          W.parentChild (a, na0) (mem_of_lookupN _ _ _ hla0) m he
        have hnm2e : nm2 = mn := Option.some.inj (hnm2.symm.trans hm)
        rw [hnm2e] at hlk2
        rcases hlk2 with h | h
        · rw [hmlnone] at h; simp at h
        · rw [hmR] at h; exact (Option.some.inj h).symm
      obtain ⟨s2x, hrun, hRx, hFx, hkvx, hlmx, hunref⟩ :=
        delete_leaf_parent_spec_min (swapKV s i m n mn) m P c rt
          { mn with key := n.key, value := n.value } pnt nct nrtt
          (by rw [swapKV_Root]; exact hroot) htm hpt hct hrtt hmp2 hkeyt
          hmlnone hmR hcm hPm hcP hside_t hnotboth_t
      have hs2x : s2x = s2 := Except.ok.inj (hrun.symm.trans hdlp)
      subst hs2x
      constructor
      · exact hkv_i s2x hkvx
      · exact hunref honly_t hponly_t hRm_t

/-- Witness for the two-child deletion theorem at the concrete tie
state `c5s`: both subtree heights are 0, so the minimum of the right
subtree (key 3) replaces the root and its cell becomes unreferenced. -/
theorem C5_delete_two_child_witness :
    (lookupN c5s2.heap 0).map (fun x => (x.key, x.value)) = some (3, 30)
      ∧ unrefAll c5s2 2 := by
  have h := (C5_delete_two_child 20 c5s (WFs_of_chk c5s (by decide)) 2 0 1 2
      (c5node (some 1) (some 2) none 2 20) c5s2 0 0
      rfl rfl rfl rfl rfl rfl rfl).2
  exact h (by decide) 2 (c5node none none (some 0) 3 30) rfl rfl

/-! ## Claim theorems -/

/-- C1: the empty operation sequence already refutes the claim.  The
empty tree is the resulting tree of that sequence in all four variants,
and its inorder traversal raises `AttributeError` instead of listing
its nodes: `BSTree.inorder` (inherited unchanged by AVLTree, RBTree and
SplayTree) applies its recursive helper to `self.Root`, which is `None`,
and the helper reads `node.left` before any emptiness test.  So not
every reachable tree's inorder traversal lists its nodes in increasing
key order, successfully or otherwise. -/
theorem C1_inorder_empty_raises :
    runBST 50 [] emptyState = .ok emptyState ∧
    runAVL 50 [] emptyState = .ok emptyState ∧
    runRB 50 [] emptyState = .ok emptyState ∧
    runSplay 50 [] emptyState = .ok emptyState ∧
    BSTree.inorder 50 emptyState = .error .attr := by
  refine ⟨rfl, rfl, rfl, rfl, rfl⟩

/-- C2: the round-trip claim fails on every variant.  Plain BSTree and
RBTree never clear the root when the last node is deleted
(`BSTree._delete_leaf` has no parentless branch; `RBTree.delete` guards
the leaf case with `if node.parent:`), and AVLTree and SplayTree leave
the new root's parent reference stale after deleting a one-child root,
after which the final leaf delete detaches from the stale ghost instead
of clearing the root.  In all four runs below every inserted key is
deleted again, yet the root reference is still a node. -/
theorem C2_roundtrip_not_empty :
    (runBST 50 [.ins 1 5, .del 1] emptyState).map PyState.Root = .ok (some 0) ∧
    (runRB 50 [.ins 1 5, .del 1] emptyState).map PyState.Root = .ok (some 0) ∧
    (runAVL 50 [.ins 1 5, .ins 2 6, .del 1, .del 2] emptyState).map PyState.Root
      = .ok (some 1) ∧
    (runSplay 50 [.ins 1 5, .ins 2 6, .del 2, .del 1] emptyState).map PyState.Root
      = .ok (some 0) := by
  refine ⟨?_, ?_, ?_, ?_⟩ <;> rfl

/-- C3: after `[insert 1, insert 2, delete 1, insert 3, insert 4]` the
red-black tree's root node (key 2) is red: deleting the one-child root
leaves `Root.parent` pointing at the removed node, and the insert-case-5
rotation at the root then fails to transfer the root reference, leaving
the red ex-grandparent as the root. -/
theorem C3_red_root :
    (runRB 100 [.ins 1 0, .ins 2 0, .del 1, .ins 3 0, .ins 4 0] emptyState).map
      rootIsRed = .ok (some true) := by
  rfl

/-- C4: insert the twelve keys below (building the height-4 Fibonacci
AVL tree) and delete key 12: `AVLTree._delete_leaf` rebalances only at
the first out-of-range ancestor (node 11) and stops, leaving the root
(key 8) with stored balance 2. -/
theorem C4_balance_two_after_delete :
    (runAVL 100 [.ins 8 0, .ins 5 0, .ins 11 0, .ins 3 0, .ins 7 0, .ins 10 0,
      .ins 12 0, .ins 2 0, .ins 4 0, .ins 6 0, .ins 9 0, .ins 1 0, .del 12]
      emptyState).map (fun s => (rootKey s, rootBalance s))
      = .ok (some 8, some 2) := by
  rfl

/-- C5 counterexample: in the tree built from `[(2,_),(1,_),(3,_)]` the
root (key 2) has two children whose subtree heights are equal, so the
claim (ties toward the left subtree's maximum) predicts that deleting 2
installs key 1 at the root.  The code compares with strict `>` and
takes the minimum of the right subtree: the root key becomes 3. -/
theorem C5_tie_goes_right :
    (runBST 50 [.ins 2 0, .ins 1 0, .ins 3 0, .del 2] emptyState).map rootKey
      = .ok (some 3) ∧
    (Except.ok (some 3) : Except PyErr (Option Int)) ≠ .ok (some 1) := by
  refine ⟨rfl, fun h => absurd (Except.ok.inj h) (by decide)⟩

/-- C7: `SplayTree.delete` reads `node.parent` before testing the
lookup result for `None`, so deleting an absent key raises
`AttributeError` instead of being a no-op (the guarded `if node:` right
below shows the intent).  The other variants do produce a no-op. -/
theorem C7_splay_delete_absent_raises :
    runSplay 50 [.ins 1 0, .del 2] emptyState = .error .attr ∧
    runSplay 50 [.del 1] emptyState = .error .attr ∧
    runBST 50 [.ins 1 0, .del 2] emptyState
      = runBST 50 [.ins 1 0] emptyState ∧
    (runBST 50 [.ins 1 0] emptyState).isOk = true := by
  refine ⟨rfl, rfl, rfl, rfl⟩

/-- C9 counterexample: the height query returns 0, not −1, on the
empty tree (`BSTree.get_height`, inherited unchanged by all four
variants, returns 0 when `not node`). -/
theorem C9_height_of_empty_is_zero :
    BSTree.get_height 50 emptyState emptyState.Root = .ok 0 ∧
    (Except.ok (0 : Int) : Except PyErr Int) ≠ .ok (-1) := by
  refine ⟨rfl, fun h => absurd (Except.ok.inj h) (by decide)⟩

/-- C9 amended: for every tree state of any variant, the height query
returns 0 on an empty tree and 0 on a single-leaf root (so the two are
not distinguished), and the element count returns 0 on an empty tree.
All four classes inherit `BSTree.get_height` and
`BSTree.get_element_count` for these queries. -/
theorem C9_amended_height_zero (fuel : Nat) (s t : PyState)
    (hs : s.Root = none) (i : Nat) (n : PyNode) (ht : t.Root = some i)
    (hn : lookupN t.heap i = some n) (hl : n.left = none) (hr : n.right = none) :
    BSTree.get_height (fuel + 1) s s.Root = .ok 0 ∧
    BSTree.get_element_count (fuel + 1) s s.Root = .ok 0 ∧
    BSTree.get_height (fuel + 1) t t.Root = .ok 0 := by
  refine ⟨?_, ?_, ?_⟩
  · rw [hs]; rfl
  · rw [hs]; rfl
  · rw [ht]
    show BSTree.get_height (fuel + 1) t (some i) = .ok 0
    simp [BSTree.get_height, readN, hn, hl, hr, Except.bind, bind, pure]

/-- Witness for C9 amended at the empty state and a one-leaf state. -/
theorem C9_amended_witness :
    BSTree.get_height 10 emptyState emptyState.Root = .ok 0 ∧
    BSTree.get_element_count 10 emptyState emptyState.Root = .ok 0 ∧
    BSTree.get_height 10
      { Root := some 0, heap := [(0, mkNode 1 5)], fresh := 1 }
      (PyState.Root { Root := some 0, heap := [(0, mkNode 1 5)], fresh := 1 })
      = .ok 0 :=
  C9_amended_height_zero 9 emptyState
    { Root := some 0, heap := [(0, mkNode 1 5)], fresh := 1 }
    rfl 0 (mkNode 1 5) rfl rfl rfl rfl

/-- C10: every traversal of an empty tree raises (`elements.append`
then `node.left` on `None`), `BSTree.levelorder` raises even on a
populated tree (its inner lookup passes a Node object as the key, which
under Python 2 mixed-type comparison always descends right and returns
`None`, and `visit.left` then raises), and the AVL/RB/Splay levelorder
overrides reference an unbound `*args` and raise `NameError` on every
call. -/
theorem C10_traversals_raise :
    BSTree.inorder 50 emptyState = .error .attr ∧
    BSTree.preorder 50 emptyState = .error .attr ∧
    BSTree.postorder 50 emptyState = .error .attr ∧
    BSTree.levelorder 50 emptyState = .error .attr ∧
    (runBST 50 [.ins 2 0, .ins 1 0, .ins 3 0] emptyState).map
      (fun s => BSTree.levelorder 50 s) = .ok (.error .attr) ∧
    AVLTree.levelorder 50 emptyState = .error .name ∧
    RBTree.levelorder 50 emptyState = .error .name ∧
    SplayTree.levelorder 50 emptyState = .error .name := by
  refine ⟨rfl, rfl, rfl, rfl, rfl, rfl, rfl, rfl⟩

/-- C8: every variant's `insert` first performs a pure lookup
(`get_node` for BSTree/AVLTree/RBTree, `_get_node_without_splaying`,
i.e. the BSTree lookup, for SplayTree) and returns without executing a
single mutation when the key is found, so the state — value, shape,
links and all node metadata — is literally unchanged. -/
theorem C8_insert_present_is_noop :
    (∀ fuel s (k v : Int) j, BSTree.get_node fuel s k s.Root = .ok (some j) →
      BSTree.insert fuel s k v = .ok s) ∧
    (∀ fuel s (k v : Int) j, BSTree.get_node fuel s k s.Root = .ok (some j) →
      AVLTree.insert fuel s k v = .ok s) ∧
    (∀ fuel s (k v : Int) j, BSTree.get_node fuel s k s.Root = .ok (some j) →
      RBTree.insert fuel s k v = .ok s) ∧
    (∀ fuel s (k v : Int) j, BSTree.get_node fuel s k s.Root = .ok (some j) →
      SplayTree.insert fuel s k v = .ok s) := by
  refine ⟨?_, ?_, ?_, ?_⟩ <;> intro fuel s k v j h <;> cases hr : s.Root with
  | _ =>
    first
    | (rw [hr] at h
       cases fuel with
       | zero => simp [BSTree.get_node] at h
       | succ f => simp [BSTree.get_node] at h)
    | (rw [hr] at h
       simp [BSTree.insert, AVLTree.insert, RBTree.insert, SplayTree.insert,
         hr, h, Except.bind, bind])

/-- Witness for C8 on a one-node tree whose key 1 is re-inserted with a
different value. -/
theorem C8_insert_present_witness :
    BSTree.insert 10 { Root := some 0, heap := [(0, mkNode 1 5)], fresh := 1 } 1 99
      = .ok { Root := some 0, heap := [(0, mkNode 1 5)], fresh := 1 } ∧
    AVLTree.insert 10 { Root := some 0, heap := [(0, mkNode 1 5)], fresh := 1 } 1 99
      = .ok { Root := some 0, heap := [(0, mkNode 1 5)], fresh := 1 } ∧
    RBTree.insert 10 { Root := some 0, heap := [(0, mkNode 1 5)], fresh := 1 } 1 99
      = .ok { Root := some 0, heap := [(0, mkNode 1 5)], fresh := 1 } ∧
    SplayTree.insert 10 { Root := some 0, heap := [(0, mkNode 1 5)], fresh := 1 } 1 99
      = .ok { Root := some 0, heap := [(0, mkNode 1 5)], fresh := 1 } :=
  ⟨C8_insert_present_is_noop.1 10 _ 1 99 0 rfl,
   C8_insert_present_is_noop.2.1 10 _ 1 99 0 rfl,
   C8_insert_present_is_noop.2.2.1 10 _ 1 99 0 rfl,
   C8_insert_present_is_noop.2.2.2 10 _ 1 99 0 rfl⟩

/-- At `splayC6att` the splay loop makes no progress: the grandparent
(the stale node 1) has no children, so none of the four rotation
configurations matches and the body recurses on an unchanged state. -/
theorem splayC6_rotate_stuck :
    ∀ fuel, SplayTree.rotate_to_root fuel splayC6att 2 = .error .fuel
  | 0 => rfl
  | fuel + 1 => by
    have h : SplayTree.rotate_to_root (fuel + 1) splayC6att 2 =
        SplayTree.rotate_to_root fuel splayC6att 2 := rfl
    rw [h]
    exact splayC6_rotate_stuck fuel

/-- C6: from the reachable state `splayC6state`, inserting the fresh
key 3 never terminates, for any recursion budget: the attached node is
never splayed to the root (and the tree root keeps key 1), because the
stale parent of the old root makes `_rotate_to_root` spin without
rotating. -/
theorem C6_insert_never_completes :
    runSplay 50 [.ins 1 0, .ins 2 0, .del 2] emptyState = .ok splayC6state ∧
    ∀ fuel, SplayTree.insert fuel splayC6state 3 7 = .error .fuel := by
  refine ⟨rfl, ?_⟩
  intro fuel
  match fuel with
  | 0 => rfl
  | 1 => rfl
  | f + 2 =>
    have h : SplayTree.insert (f + 2) splayC6state 3 7 =
        SplayTree.rotate_to_root (f + 1) splayC6att 2 := rfl
    rw [h]
    exact splayC6_rotate_stuck (f + 1)
